import Mathlib

/-!
# Camera.hpp: first-person camera with tile-grid collision

A shallow embedding of `src/src/Camera.hpp`.

* `float` is an arbitrary linearly ordered field `α` with a floor function
  (exact arithmetic: no rounding, no NaN, no infinities).  The library
  functions the code calls (`sqrt`, `cos`, `sin`) and the constant π are the
  fields of a `MathLib α`, so that everything that does not depend on their
  values is proved for every choice of them; `ratMath` is an executable
  instance over `ℚ`, `realMath` the exact one over `ℝ` with the mathematical
  π, and `machineMath k` the one over `ℝ` whose degrees-to-radians constant
  is the machine number `k`, as the constant of `glm::radians` is.
* Where a claim turns on the rounding of `float`, `CheckCollisionRounded`
  is `CheckCollision` with the result of every float operation passed
  through a rounding function, and `binary32` is round-to-nearest-even with
  a 24-bit significand on `ℚ`.
* `int` is `Int`; `static_cast<int>(f)` is truncation toward zero (`toInt`).
  The conversion of a value outside the range of `int` is undefined in C++;
  here `Int` is unbounded and the conversion is total.
* `const int maze[10][10]` is a total function from a row and a column to the
  cell value.  A read outside the array is undefined in C++; here every index
  has a value.
* A member function that mutates the camera is a function from the old
  `Camera` to the new one.
-/

set_option linter.unusedSectionVars false

namespace MazeCamera

/-- The three-component vector `glm::vec3`. -/
structure Vec3 (α : Type) where
  x : α
  y : α
  z : α
deriving DecidableEq

/-- The functions of the C math library that the camera calls, and π
(`glm::radians` multiplies by π/180). -/
structure MathLib (α : Type) where
  sqrt : α → α
  cos : α → α
  sin : α → α
  pi : α

/-- The result of one collision probe (`struct CollisionInfo`). -/
structure CollisionInfo where
  collisionX : Bool
  collisionZ : Bool
deriving DecidableEq

/-- The movement directions (`enum Camera_Movement`). -/
inductive Camera_Movement where
  | FORWARD
  | BACKWARD
  | LEFT
  | RIGHT
deriving DecidableEq

/-- The grid `const int maze[10][10]`, read as `maze row col`. -/
abbrev Maze := Int → Int → Int

/-- The data members of `class Camera`. -/
structure Camera (α : Type) where
  Position : Vec3 α
  Front : Vec3 α
  Up : Vec3 α
  Right : Vec3 α
  WorldUp : Vec3 α
  Yaw : α
  Pitch : α
  MovementSpeed : α
  MouseSensitivity : α
  Zoom : α
  collisionMargin : α

section Model

variable {α : Type} [LinearOrderedField α] [FloorRing α]

/-- The conversion `static_cast<int>(f)`: the fractional part is discarded,
that is, the value is truncated toward zero. -/
def toInt (f : α) : Int :=
  if 0 ≤ f then ⌊f⌋ else ⌈f⌉

/-- Componentwise `a + b` of `glm::vec3`. -/
def Vec3.add (a b : Vec3 α) : Vec3 α :=
  ⟨a.x + b.x, a.y + b.y, a.z + b.z⟩

/-- Componentwise `a - b` of `glm::vec3`. -/
def Vec3.sub (a b : Vec3 α) : Vec3 α :=
  ⟨a.x - b.x, a.y - b.y, a.z - b.z⟩

/-- The product `v * s` of a `glm::vec3` and a scalar. -/
def Vec3.scale (v : Vec3 α) (s : α) : Vec3 α :=
  ⟨v.x * s, v.y * s, v.z * s⟩

/-- The dot product `glm::dot`. -/
def dot (a b : Vec3 α) : α :=
  a.x * b.x + a.y * b.y + a.z * b.z

/-- The cross product `glm::cross`. -/
def cross (a b : Vec3 α) : Vec3 α :=
  ⟨a.y * b.z - b.y * a.z, a.z * b.x - b.z * a.x, a.x * b.y - b.x * a.y⟩

/-- The function `glm::inversesqrt`: `1 / sqrt(x)`. -/
def inversesqrt (M : MathLib α) (a : α) : α :=
  1 / M.sqrt a

/-- The function `glm::normalize`: `v * inversesqrt(dot(v, v))`. -/
def normalize (M : MathLib α) (v : Vec3 α) : Vec3 α :=
  v.scale (inversesqrt M (dot v v))

/-- The function `glm::radians`: degrees times π/180. -/
def radians (M : MathLib α) (degrees : α) : α :=
  degrees * (M.pi / 180)

/-- The default constants of Camera.hpp. -/
def YAW : α := -90
/-- Default pitch. -/
def PITCH : α := 0
/-- Default movement speed, `2.5f`. -/
def SPEED : α := 5 / 2
/-- Default mouse sensitivity, `0.1f`. -/
def SENSITIVITY : α := 1 / 10
/-- Default zoom, `45.0f`. -/
def ZOOM : α := 45

/-- The private member `Camera::updateCameraVectors`: the front vector from
the Euler angles, then the right and up vectors by cross products. -/
def updateCameraVectors (M : MathLib α) (cam : Camera α) : Camera α :=
  let front : Vec3 α :=
    ⟨M.cos (radians M cam.Yaw) * M.cos (radians M cam.Pitch),
     M.sin (radians M cam.Pitch),
     M.sin (radians M cam.Yaw) * M.cos (radians M cam.Pitch)⟩
  let Front := normalize M front
  let Right := normalize M (cross Front cam.WorldUp)
  let Up := normalize M (cross Right Front)
  { cam with Front := Front, Right := Right, Up := Up }

/-- The constructor `Camera(position, up, yaw, pitch, margin)`.  `Up` and
`Right` have no initialiser; `updateCameraVectors` assigns both before the
constructor returns, so their initial value here (zero) is never seen. -/
def mkCamera (M : MathLib α) (position up : Vec3 α) (yaw pitch margin : α) : Camera α :=
  updateCameraVectors M
    { Position := position
      Front := ⟨0, 0, -1⟩
      Up := ⟨0, 0, 0⟩
      Right := ⟨0, 0, 0⟩
      WorldUp := up
      Yaw := yaw
      Pitch := pitch
      MovementSpeed := SPEED
      MouseSensitivity := SENSITIVITY
      Zoom := ZOOM
      collisionMargin := margin }

/-- The private member `Camera::CheckCollision`, every `+`, `-` and `/` taken
as the exact field operation. -/
def CheckCollision (cam : Camera α) (newPosition : Vec3 α) (maze : Maze)
    (mazeWidth mazeHeight : Int) (tileSize : α) : CollisionInfo :=
  let x := toInt ((newPosition.x + cam.collisionMargin) / tileSize)
  let z := toInt ((newPosition.z + cam.collisionMargin) / tileSize)
  let xMinus := toInt ((newPosition.x - cam.collisionMargin) / tileSize)
  let zMinus := toInt ((newPosition.z - cam.collisionMargin) / tileSize)
  if 0 ≤ x ∧ x < mazeWidth ∧ 0 ≤ z ∧ z < mazeHeight ∧
      0 ≤ xMinus ∧ xMinus < mazeWidth ∧ 0 ≤ zMinus ∧ zMinus < mazeHeight then
    { collisionX :=
        decide (maze (toInt (newPosition.z / tileSize)) x = 1 ∨
          maze (toInt (newPosition.z / tileSize)) xMinus = 1)
      collisionZ :=
        decide (maze z (toInt (newPosition.x / tileSize)) = 1 ∨
          maze zMinus (toInt (newPosition.x / tileSize)) = 1) }
  else
    { collisionX := true, collisionZ := true }

/-- The position `newPosition` that `Camera::ProcessKeyboard` hands to
`CheckCollision` (lines 77-88): the four `if (direction == ...)` statements
run one after the other on the same variable. -/
def newPositionOf (M : MathLib α) (cam : Camera α) (direction : Camera_Movement)
    (deltaTime : α) : Vec3 α :=
  let velocity := cam.MovementSpeed * deltaTime
  let horizontalFront := normalize M ⟨cam.Front.x, 0, cam.Front.z⟩
  let p0 := cam.Position
  let p1 := if direction = Camera_Movement.FORWARD then p0.add (horizontalFront.scale velocity) else p0
  let p2 := if direction = Camera_Movement.BACKWARD then p1.sub (horizontalFront.scale velocity) else p1
  let p3 := if direction = Camera_Movement.LEFT then p2.sub (cam.Right.scale velocity) else p2
  let p4 := if direction = Camera_Movement.RIGHT then p3.add (cam.Right.scale velocity) else p3
  p4

/-- The member `Camera::ProcessKeyboard`. -/
def ProcessKeyboard (M : MathLib α) (cam : Camera α) (direction : Camera_Movement)
    (deltaTime : α) (maze : Maze) (mazeWidth mazeHeight : Int) (tileSize : α) : Camera α :=
  let newPosition := newPositionOf M cam direction deltaTime
  let collisionResult := CheckCollision cam newPosition maze mazeWidth mazeHeight tileSize
  if collisionResult.collisionX && collisionResult.collisionZ then
    cam
  else if collisionResult.collisionX then
    { cam with Position := ⟨cam.Position.x, newPosition.y, newPosition.z⟩ }
  else if collisionResult.collisionZ then
    { cam with Position := ⟨newPosition.x, newPosition.y, cam.Position.z⟩ }
  else
    { cam with Position := newPosition }

/-- The member `Camera::ProcessMouseMovement`. -/
def ProcessMouseMovement (M : MathLib α) (cam : Camera α) (xoffset yoffset : α)
    (constrainPitch : Bool) : Camera α :=
  let xoffset := xoffset * cam.MouseSensitivity
  let yoffset := yoffset * cam.MouseSensitivity
  let Yaw := cam.Yaw + xoffset
  let Pitch := cam.Pitch + yoffset
  let Pitch :=
    if constrainPitch then
      let Pitch := if Pitch > 89 then 89 else Pitch
      if Pitch < -89 then -89 else Pitch
    else Pitch
  updateCameraVectors M { cam with Yaw := Yaw, Pitch := Pitch }

/-- The member `Camera::ProcessMouseScroll`. -/
def ProcessMouseScroll (cam : Camera α) (yoffset : α) : Camera α :=
  let Zoom := cam.Zoom - yoffset
  let Zoom := if Zoom < 1 then 1 else Zoom
  let Zoom := if Zoom > 45 then 45 else Zoom
  { cam with Zoom := Zoom }

/-- The private member `Camera::CheckCollision` with the rounding of `float`
made explicit: `rnd` is applied to the result of every `+`, `-` and `/`, in
the order the source evaluates them (`(newPosition.x + collisionMargin)`
first, then the quotient by `tileSize`).  With `rnd` the identity this is
`CheckCollision`. -/
def CheckCollisionRounded (rnd : α → α) (cam : Camera α) (newPosition : Vec3 α) (maze : Maze)
    (mazeWidth mazeHeight : Int) (tileSize : α) : CollisionInfo :=
  let x := toInt (rnd (rnd (newPosition.x + cam.collisionMargin) / tileSize))
  let z := toInt (rnd (rnd (newPosition.z + cam.collisionMargin) / tileSize))
  let xMinus := toInt (rnd (rnd (newPosition.x - cam.collisionMargin) / tileSize))
  let zMinus := toInt (rnd (rnd (newPosition.z - cam.collisionMargin) / tileSize))
  if 0 ≤ x ∧ x < mazeWidth ∧ 0 ≤ z ∧ z < mazeHeight ∧
      0 ≤ xMinus ∧ xMinus < mazeWidth ∧ 0 ≤ zMinus ∧ zMinus < mazeHeight then
    { collisionX :=
        decide (maze (toInt (rnd (newPosition.z / tileSize))) x = 1 ∨
          maze (toInt (rnd (newPosition.z / tileSize))) xMinus = 1)
      collisionZ :=
        decide (maze z (toInt (rnd (newPosition.x / tileSize))) = 1 ∨
          maze zMinus (toInt (rnd (newPosition.x / tileSize))) = 1) }
  else
    { collisionX := true, collisionZ := true }

end Model

/-- An executable square root on `ℚ`: the integer square roots of numerator
and denominator; exact on squares of rationals. -/
def ratSqrt (q : ℚ) : ℚ :=
  (Nat.sqrt q.num.toNat : ℚ) / (Nat.sqrt q.den : ℚ)

/-- An executable `MathLib` over `ℚ` for evaluating the model on concrete
inputs.  `sqrt` is exact on squares; `cos` and `sin` are the degree-two and
degree-one Taylor polynomials and π is 22/7, which only matter where a
concrete input calls `updateCameraVectors`. -/
def ratMath : MathLib ℚ where
  sqrt := ratSqrt
  cos := fun t => 1 - t * t / 2
  sin := fun t => t
  pi := 22 / 7

/-- The exact `MathLib` over `ℝ`: the real square root, cosine, sine and π. -/
noncomputable def realMath : MathLib ℝ where
  sqrt := Real.sqrt
  cos := Real.cos
  sin := Real.sin
  pi := Real.pi

/-- The constant of `glm::radians`, which returns
`degrees * static_cast<genType>(0.01745329251994329576923690768489)`: a
decimal literal, not π/180. -/
def glmRadiansConstant : ℚ := 0.01745329251994329576923690768489

/-- The `MathLib` over `ℝ` with the real square root, cosine and sine and
with a machine number `k` as the degrees-to-radians constant
(`radians (machineMath k) d = d * k`): `k = glmRadiansConstant` is the
literal of `glm::radians`, and any float the literal is converted to is
another `k`. -/
noncomputable def machineMath (k : ℚ) : MathLib ℝ where
  sqrt := Real.sqrt
  cos := Real.cos
  sin := Real.sin
  pi := 180 * (k : ℝ)

/-- Rounding to the nearest integer, a tie going to the even one. -/
def roundHalfEven (r : ℚ) : Int :=
  if Int.fract r < 1 / 2 then ⌊r⌋
  else if 1 / 2 < Int.fract r then ⌊r⌋ + 1
  else if ⌊r⌋ % 2 = 0 then ⌊r⌋ else ⌊r⌋ + 1

/-- The `float` (IEEE 754 binary32) nearest to `q`, ties to even: with
`2 ^ e ≤ |q| < 2 ^ (e + 1)` the result is the multiple of `2 ^ (e - 23)`
nearest to `q` (24-bit significand).  Overflow and subnormal numbers are not
modelled; the values used here lie between `2 ^ (-4)` and `2 ^ 3`. -/
def binary32 (q : ℚ) : ℚ :=
  if q = 0 then 0
  else (roundHalfEven (q / 2 ^ (Int.log 2 |q| - 23)) : ℚ) * 2 ^ (Int.log 2 |q| - 23)

/-! ## Vocabulary of the specification -/

section Vocabulary

variable {α : Type} [LinearOrderedField α] [FloorRing α]

/-- The candidate position of a move as the specification words it (§4.2,
steps 1 to 3): `+horizontalFront*velocity` for FORWARD,
`-horizontalFront*velocity` for BACKWARD, `-right*velocity` for LEFT and
`+right*velocity` for RIGHT, with `velocity = movementSpeed * deltaTime` and
`horizontalFront = normalize(vec3(front.x, 0, front.z))`. -/
def moveCandidate (M : MathLib α) (cam : Camera α) (direction : Camera_Movement)
    (deltaTime : α) : Vec3 α :=
  match direction with
  | Camera_Movement.FORWARD =>
      cam.Position.add ((normalize M ⟨cam.Front.x, 0, cam.Front.z⟩).scale (cam.MovementSpeed * deltaTime))
  | Camera_Movement.BACKWARD =>
      cam.Position.sub ((normalize M ⟨cam.Front.x, 0, cam.Front.z⟩).scale (cam.MovementSpeed * deltaTime))
  | Camera_Movement.LEFT =>
      cam.Position.sub (cam.Right.scale (cam.MovementSpeed * deltaTime))
  | Camera_Movement.RIGHT =>
      cam.Position.add (cam.Right.scale (cam.MovementSpeed * deltaTime))

/-- The margin-offset cell index `x` of `CheckCollision` (line 154). -/
def indexX (cam : Camera α) (pos : Vec3 α) (tileSize : α) : Int :=
  toInt ((pos.x + cam.collisionMargin) / tileSize)

/-- The margin-offset cell index `z` of `CheckCollision` (line 155). -/
def indexZ (cam : Camera α) (pos : Vec3 α) (tileSize : α) : Int :=
  toInt ((pos.z + cam.collisionMargin) / tileSize)

/-- The margin-offset cell index `xMinus` of `CheckCollision` (line 156). -/
def indexXMinus (cam : Camera α) (pos : Vec3 α) (tileSize : α) : Int :=
  toInt ((pos.x - cam.collisionMargin) / tileSize)

/-- The margin-offset cell index `zMinus` of `CheckCollision` (line 157). -/
def indexZMinus (cam : Camera α) (pos : Vec3 α) (tileSize : α) : Int :=
  toInt ((pos.z - cam.collisionMargin) / tileSize)

/-- All four margin-offset indices pass the bounds check of line 162. -/
def IndicesInRange (cam : Camera α) (pos : Vec3 α) (mazeWidth mazeHeight : Int)
    (tileSize : α) : Prop :=
  (0 ≤ indexX cam pos tileSize ∧ indexX cam pos tileSize < mazeWidth) ∧
  (0 ≤ indexXMinus cam pos tileSize ∧ indexXMinus cam pos tileSize < mazeWidth) ∧
  (0 ≤ indexZ cam pos tileSize ∧ indexZ cam pos tileSize < mazeHeight) ∧
  (0 ≤ indexZMinus cam pos tileSize ∧ indexZMinus cam pos tileSize < mazeHeight)

/-- The value of the grid cell that contains the position `pos`: row
`⌊pos.z / tileSize⌋`, column `⌊pos.x / tileSize⌋`. -/
def cellValue (maze : Maze) (tileSize : α) (pos : Vec3 α) : Int :=
  maze ⌊pos.z / tileSize⌋ ⌊pos.x / tileSize⌋

/-- The specification's `clamp v to [lo, hi]`. -/
def clamp (v lo hi : α) : α :=
  if v < lo then lo else if hi < v then hi else v

/-- One call of a public member function, with its arguments. -/
inductive Op (α : Type) where
  | keyboard (direction : Camera_Movement) (deltaTime : α) (maze : Maze)
      (mazeWidth mazeHeight : Int) (tileSize : α)
  | mouseMovement (xoffset yoffset : α) (constrainPitch : Bool)
  | mouseScroll (yoffset : α)

/-- The camera after one call. -/
def applyOp (M : MathLib α) (cam : Camera α) : Op α → Camera α
  | Op.keyboard direction deltaTime maze mazeWidth mazeHeight tileSize =>
      ProcessKeyboard M cam direction deltaTime maze mazeWidth mazeHeight tileSize
  | Op.mouseMovement xoffset yoffset constrainPitch =>
      ProcessMouseMovement M cam xoffset yoffset constrainPitch
  | Op.mouseScroll yoffset => ProcessMouseScroll cam yoffset

/-- The camera after a sequence of calls, first call first. -/
def run (M : MathLib α) (cam : Camera α) (ops : List (Op α)) : Camera α :=
  ops.foldl (applyOp M) cam

/-- The camera after one `ProcessMouseMovement(xoffset, 1000, true)` call for
each element of `xoffsets`, in order. -/
def lookUpRepeatedly (M : MathLib α) (cam : Camera α) (xoffsets : List α) : Camera α :=
  xoffsets.foldl (fun c xoffset => ProcessMouseMovement M c xoffset 1000 true) cam

/-- The function `glm::length`: `sqrt(dot(v, v))`. -/
def length (M : MathLib α) (v : Vec3 α) : α :=
  M.sqrt (dot v v)

/-- The three vectors are mutually orthonormal: each has length 1 and each
pairwise dot product is 0. -/
def Orthonormal (M : MathLib α) (front right up : Vec3 α) : Prop :=
  (length M front = 1 ∧ length M right = 1 ∧ length M up = 1) ∧
  (dot front right = 0 ∧ dot front up = 0 ∧ dot right up = 0)

/-- The unoffset row index `static_cast<int>(newPosition.z / tileSize)` of
`CheckCollision` (line 164). -/
def centreRow (pos : Vec3 α) (tileSize : α) : Int :=
  toInt (pos.z / tileSize)

/-- The unoffset column index `static_cast<int>(newPosition.x / tileSize)` of
`CheckCollision` (line 169). -/
def centreCol (pos : Vec3 α) (tileSize : α) : Int :=
  toInt (pos.x / tileSize)

/-- The (row, column) pairs at which `CheckCollision` subscripts `maze`
(lines 164 and 169): four when the bounds check of line 162 passes, none
otherwise.  The right operand of each `||` is listed whether or not it is
evaluated. -/
def lookups (cam : Camera α) (newPosition : Vec3 α) (mazeWidth mazeHeight : Int)
    (tileSize : α) : List (Int × Int) :=
  let x := toInt ((newPosition.x + cam.collisionMargin) / tileSize)
  let z := toInt ((newPosition.z + cam.collisionMargin) / tileSize)
  let xMinus := toInt ((newPosition.x - cam.collisionMargin) / tileSize)
  let zMinus := toInt ((newPosition.z - cam.collisionMargin) / tileSize)
  if 0 ≤ x ∧ x < mazeWidth ∧ 0 ≤ z ∧ z < mazeHeight ∧
      0 ≤ xMinus ∧ xMinus < mazeWidth ∧ 0 ≤ zMinus ∧ zMinus < mazeHeight then
    [(toInt (newPosition.z / tileSize), x), (toInt (newPosition.z / tileSize), xMinus),
     (z, toInt (newPosition.x / tileSize)), (zMinus, toInt (newPosition.x / tileSize))]
  else
    []

/-- The index `x` as the specification words it (§4.2):
`floor((pos.x + margin) / tileSize)`. -/
def specIndexX (cam : Camera α) (pos : Vec3 α) (tileSize : α) : Int :=
  ⌊(pos.x + cam.collisionMargin) / tileSize⌋

/-- The index `xMinus` as the specification words it:
`floor((pos.x - margin) / tileSize)`. -/
def specIndexXMinus (cam : Camera α) (pos : Vec3 α) (tileSize : α) : Int :=
  ⌊(pos.x - cam.collisionMargin) / tileSize⌋

/-- The index `z` as the specification words it:
`floor((pos.z + margin) / tileSize)`. -/
def specIndexZ (cam : Camera α) (pos : Vec3 α) (tileSize : α) : Int :=
  ⌊(pos.z + cam.collisionMargin) / tileSize⌋

/-- The index `zMinus` as the specification words it:
`floor((pos.z - margin) / tileSize)`. -/
def specIndexZMinus (cam : Camera α) (pos : Vec3 α) (tileSize : α) : Int :=
  ⌊(pos.z - cam.collisionMargin) / tileSize⌋

/-- The front vector the specification derives from yaw and pitch (§4.1):
`(cos yaw * cos pitch, sin pitch, sin yaw * cos pitch)` in radians,
normalized. -/
def derivedFront (M : MathLib α) (yaw pitch : α) : Vec3 α :=
  normalize M ⟨M.cos (radians M yaw) * M.cos (radians M pitch), M.sin (radians M pitch),
    M.sin (radians M yaw) * M.cos (radians M pitch)⟩

/-- The right vector of the specification: `normalize(cross(front, worldUp))`. -/
def derivedRight (M : MathLib α) (yaw pitch : α) (worldUp : Vec3 α) : Vec3 α :=
  normalize M (cross (derivedFront M yaw pitch) worldUp)

/-- The up vector of the specification: `normalize(cross(right, front))`. -/
def derivedUp (M : MathLib α) (yaw pitch : α) (worldUp : Vec3 α) : Vec3 α :=
  normalize M (cross (derivedRight M yaw pitch worldUp) (derivedFront M yaw pitch))

/-- The scene of a blocked cell ahead: `0 < tileSize`,
`0 ≤ 2 * margin ≤ tileSize`; the camera stands in cell `(r, c)` with its
whole margin footprint inside that cell (all six indices the code computes
for its position are `r` resp. `c`); cell `(r, c)` is open, cell `(r - 1, c)`
is blocked, and the cells beside `(r, c)` are open. -/
def BlockedAhead (cam : Camera α) (maze : Maze) (tileSize : α) (r c : Int) : Prop :=
  (0 < tileSize ∧ 0 ≤ 2 * cam.collisionMargin ∧ 2 * cam.collisionMargin ≤ tileSize) ∧
  (centreRow cam.Position tileSize = r ∧ centreCol cam.Position tileSize = c ∧
    indexX cam cam.Position tileSize = c ∧ indexXMinus cam cam.Position tileSize = c ∧
    indexZ cam cam.Position tileSize = r ∧ indexZMinus cam cam.Position tileSize = r) ∧
  (maze r c = 0 ∧ maze (r - 1) c = 1 ∧ maze r (c - 1) = 0 ∧ maze r (c + 1) = 0)

end Vocabulary

/-! ## Concrete inputs -/

/-- A grid with no blocked cell. -/
def openMaze : Maze := fun _ _ => 0

/-- A grid whose only blocked cell is row 2, column 1. -/
def cornerMaze : Maze := fun row col => if row = 2 ∧ col = 1 then 1 else 0

/-- The default-constructed orientation (yaw -90, pitch 0, so front
`(0, 0, -1)`, right `(1, 0, 0)`, up `(0, 1, 0)`) with the default margin
`0.12`, standing at `(0.2, 0, 0.5)`: inside cell row 0, column 0, next to the
grid's low-x edge. -/
def nearEdge : Camera ℚ :=
  { Position := ⟨1 / 5, 0, 1 / 2⟩
    Front := ⟨0, 0, -1⟩
    Up := ⟨0, 1, 0⟩
    Right := ⟨1, 0, 0⟩
    WorldUp := ⟨0, 1, 0⟩
    Yaw := YAW
    Pitch := PITCH
    MovementSpeed := SPEED
    MouseSensitivity := SENSITIVITY
    Zoom := ZOOM
    collisionMargin := 3 / 25 }

/-- A camera at `(1.9, 0, 1.9)`, inside cell row 1, column 1, looking
diagonally along `front = (0.6, 0, 0.8)` (so right `(-0.8, 0, 0.6)`, up
`(0, 1, 0)`), default margin `0.12`.  The yaw of that front vector is
`atan2(0.8, 0.6)`, about 53.13 degrees, which is not rational: the field holds
the rounded value, and `ProcessKeyboard` never reads it. -/
def nearCorner : Camera ℚ :=
  { Position := ⟨19 / 10, 0, 19 / 10⟩
    Front := ⟨3 / 5, 0, 4 / 5⟩
    Up := ⟨0, 1, 0⟩
    Right := ⟨-4 / 5, 0, 3 / 5⟩
    WorldUp := ⟨0, 1, 0⟩
    Yaw := 5313 / 100
    Pitch := 0
    MovementSpeed := SPEED
    MouseSensitivity := SENSITIVITY
    Zoom := ZOOM
    collisionMargin := 3 / 25 }

/-- The camera `Camera()` built with every default argument, over `ℝ`. -/
noncomputable def defaultCamera : Camera ℝ :=
  mkCamera realMath ⟨0, 0, 0⟩ ⟨0, 1, 0⟩ YAW PITCH (3 / 25)

/-- The default camera after one `ProcessMouseMovement(0, -1000)`: it looks
down as far as the clamp allows. -/
noncomputable def lookingDown : Camera ℝ :=
  ProcessMouseMovement realMath defaultCamera 0 (-1000) true

/-- The camera `Camera(position, up, YAW, 89)` at `(0.5, 0, 0.5)`: it looks up
as far as the clamp allows. -/
noncomputable def steepCamera : Camera ℝ :=
  mkCamera realMath ⟨1 / 2, 0, 1 / 2⟩ ⟨0, 1, 0⟩ YAW 89 (3 / 25)

/-- Camera members with yaw 0 and pitch 90 (looking straight up), world up
`(0, 1, 0)`, before `updateCameraVectors` runs. -/
noncomputable def straightUp : Camera ℝ :=
  { Position := ⟨0, 0, 0⟩
    Front := ⟨0, 0, -1⟩
    Up := ⟨0, 1, 0⟩
    Right := ⟨1, 0, 0⟩
    WorldUp := ⟨0, 1, 0⟩
    Yaw := 0
    Pitch := 90
    MovementSpeed := SPEED
    MouseSensitivity := SENSITIVITY
    Zoom := ZOOM
    collisionMargin := 3 / 25 }

/-- A grid whose only blocked cell is row 1, column 1. -/
def aheadMaze : Maze := fun row col => if row = 1 ∧ col = 1 then 1 else 0

/-- The default-constructed orientation (front `(0, 0, -1)`) at
`(1.5, 0, 2.2)`: in cell row 2, column 1 of unit tiles, footprint inside the
cell, facing the cell row 1, column 1. -/
def facingBlock : Camera ℚ :=
  { Position := ⟨3 / 2, 0, 11 / 5⟩
    Front := ⟨0, 0, -1⟩
    Up := ⟨0, 1, 0⟩
    Right := ⟨1, 0, 0⟩
    WorldUp := ⟨0, 1, 0⟩
    Yaw := YAW
    Pitch := PITCH
    MovementSpeed := SPEED
    MouseSensitivity := SENSITIVITY
    Zoom := ZOOM
    collisionMargin := 3 / 25 }

/-- A camera at `(1.85, 0, 2.2)`, in cell row 2, column 1 of unit tiles with
its footprint inside the cell, looking diagonally along
`front = (0.8, 0, -0.6)` (so right `(0.6, 0, 0.8)`, up `(0, 1, 0)`).  The yaw
of that front vector is `atan2(-0.6, 0.8)`, about -36.87 degrees, which is
not rational: the field holds the rounded value, and `ProcessKeyboard` never
reads it. -/
def passingBlock : Camera ℚ :=
  { Position := ⟨37 / 20, 0, 11 / 5⟩
    Front := ⟨4 / 5, 0, -3 / 5⟩
    Up := ⟨0, 1, 0⟩
    Right := ⟨3 / 5, 0, 4 / 5⟩
    WorldUp := ⟨0, 1, 0⟩
    Yaw := -3687 / 100
    Pitch := 0
    MovementSpeed := SPEED
    MouseSensitivity := SENSITIVITY
    Zoom := ZOOM
    collisionMargin := 3 / 25 }

/-- A grid whose only blocked cell is row 4, column 4. -/
def centreMaze : Maze := fun row col => if row = 4 ∧ col = 4 then 1 else 0

/-- A camera whose margin is the float `0.1f` (`13421773 / 2 ^ 27`), half of
the tile size `0.2f` (`13421773 / 2 ^ 26`) used with it, looking along
`(1, 0, 0)` from `(0.65f, 0, 0.9f)`.  A FORWARD step of `0.1f` seconds has
the candidate `(0.9f, 0, 0.9f)` (`2.5f * 0.1f` rounds to `0.25f`, and
`0.65f + 0.25f` is `0.9f = 7549747 / 2 ^ 23` exactly). -/
def halfTileMargin : Camera ℚ :=
  { Position := ⟨5452595 / 8388608, 0, 7549747 / 8388608⟩
    Front := ⟨1, 0, 0⟩
    Up := ⟨0, 1, 0⟩
    Right := ⟨0, 0, 1⟩
    WorldUp := ⟨0, 1, 0⟩
    Yaw := 0
    Pitch := 0
    MovementSpeed := SPEED
    MouseSensitivity := SENSITIVITY
    Zoom := ZOOM
    collisionMargin := 13421773 / 134217728 }

/-! ## Shared lemmas -/

section Lemmas

variable {α : Type} [LinearOrderedField α] [FloorRing α]

theorem toInt_of_nonneg {f : α} {n : Int} (h1 : (n : α) ≤ f) (h2 : f < (n : α) + 1)
    (h0 : 0 ≤ f) : toInt f = n := by
  unfold toInt
  rw [if_pos h0]
  exact Int.floor_eq_iff.mpr ⟨h1, h2⟩

theorem toInt_of_neg {f : α} {n : Int} (h1 : (n : α) - 1 < f) (h2 : f ≤ (n : α))
    (h0 : f < 0) : toInt f = n := by
  unfold toInt
  rw [if_neg (not_le.mpr h0)]
  exact Int.ceil_eq_iff.mpr ⟨h1, h2⟩

theorem newPositionOf_eq_moveCandidate (M : MathLib α) (cam : Camera α)
    (direction : Camera_Movement) (deltaTime : α) :
    newPositionOf M cam direction deltaTime = moveCandidate M cam direction deltaTime := by
  cases direction <;> simp [newPositionOf, moveCandidate]

theorem checkCollision_of_not_inRange (cam : Camera α) (pos : Vec3 α) (maze : Maze)
    (mazeWidth mazeHeight : Int) (tileSize : α)
    (h : ¬ IndicesInRange cam pos mazeWidth mazeHeight tileSize) :
    CheckCollision cam pos maze mazeWidth mazeHeight tileSize =
      { collisionX := true, collisionZ := true } := by
  unfold CheckCollision
  simp only
  rw [if_neg]
  intro hin
  apply h
  simp only [IndicesInRange, indexX, indexXMinus, indexZ, indexZMinus]
  tauto

theorem processKeyboard_zoom (M : MathLib α) (cam : Camera α)
    (direction : Camera_Movement) (deltaTime : α) (maze : Maze)
    (mazeWidth mazeHeight : Int) (tileSize : α) :
    (ProcessKeyboard M cam direction deltaTime maze mazeWidth mazeHeight tileSize).Zoom
      = cam.Zoom := by
  unfold ProcessKeyboard
  simp only
  split_ifs <;> rfl

theorem processMouseMovement_zoom (M : MathLib α) (cam : Camera α) (xoffset yoffset : α)
    (constrainPitch : Bool) :
    (ProcessMouseMovement M cam xoffset yoffset constrainPitch).Zoom = cam.Zoom := rfl

theorem processMouseScroll_zoom_eq (cam : Camera α) (yoffset : α) :
    (ProcessMouseScroll cam yoffset).Zoom = clamp (cam.Zoom - yoffset) 1 45 := by
  simp only [ProcessMouseScroll, clamp]
  split_ifs <;> first | rfl | (exfalso; linarith)

theorem clamp_mem (v : α) : 1 ≤ clamp v 1 45 ∧ clamp v 1 45 ≤ 45 := by
  unfold clamp
  split_ifs <;> constructor <;> linarith

theorem run_zoom_mem (M : MathLib α) (ops : List (Op α)) :
    ∀ cam : Camera α, 1 ≤ cam.Zoom ∧ cam.Zoom ≤ 45 →
      1 ≤ (run M cam ops).Zoom ∧ (run M cam ops).Zoom ≤ 45 := by
  induction ops with
  | nil => intro cam h; exact h
  | cons op rest ih =>
    intro cam h
    have hstep : run M cam (op :: rest) = run M (applyOp M cam op) rest := rfl
    rw [hstep]
    apply ih
    cases op with
    | keyboard d dt mz w hh ts => simpa [applyOp, processKeyboard_zoom] using h
    | mouseMovement xo yo cp => simpa [applyOp, processMouseMovement_zoom] using h
    | mouseScroll yo =>
      simp only [applyOp, processMouseScroll_zoom_eq]
      exact clamp_mem _

theorem mkCamera_zoom (M : MathLib α) (position up : Vec3 α) (yaw pitch margin : α) :
    (mkCamera M position up yaw pitch margin).Zoom = 45 := rfl

/-- The pitch that `ProcessMouseMovement` stores, written out. -/
theorem processMouseMovement_pitch (M : MathLib α) (cam : Camera α) (xoffset yoffset : α)
    (constrainPitch : Bool) :
    (ProcessMouseMovement M cam xoffset yoffset constrainPitch).Pitch =
      if constrainPitch then
        (if (if cam.Pitch + yoffset * cam.MouseSensitivity > 89 then 89
              else cam.Pitch + yoffset * cam.MouseSensitivity) < -89 then -89
          else (if cam.Pitch + yoffset * cam.MouseSensitivity > 89 then 89
              else cam.Pitch + yoffset * cam.MouseSensitivity))
      else cam.Pitch + yoffset * cam.MouseSensitivity := rfl

theorem processMouseMovement_sensitivity (M : MathLib α) (cam : Camera α) (xoffset yoffset : α)
    (constrainPitch : Bool) :
    (ProcessMouseMovement M cam xoffset yoffset constrainPitch).MouseSensitivity
      = cam.MouseSensitivity := rfl

theorem constrained_pitch_mem (M : MathLib α) (cam : Camera α) (xoffset yoffset : α) :
    -89 ≤ (ProcessMouseMovement M cam xoffset yoffset true).Pitch ∧
      (ProcessMouseMovement M cam xoffset yoffset true).Pitch ≤ 89 := by
  rw [processMouseMovement_pitch]
  simp only [if_true]
  split_ifs <;> constructor <;> linarith

/-- One look-up call (`yoffset = 1000`, sensitivity `1/10`) from a pitch of
at least -11 ends at exactly 89. -/
theorem lookUp_pitch_of_ge (M : MathLib α) (cam : Camera α) (xoffset : α)
    (hs : cam.MouseSensitivity = 1 / 10) (hp : -11 ≤ cam.Pitch) :
    (ProcessMouseMovement M cam xoffset 1000 true).Pitch = 89 := by
  rw [processMouseMovement_pitch, hs]
  simp only [if_true]
  have e : cam.Pitch + 1000 * (1 / 10) = cam.Pitch + 100 := by norm_num
  rw [e]
  split_ifs <;> first | rfl | (exfalso; linarith) | linarith

/-- One look-up call from a pitch of at least -89 ends at 11 or more. -/
theorem lookUp_pitch_ge_eleven (M : MathLib α) (cam : Camera α) (xoffset : α)
    (hs : cam.MouseSensitivity = 1 / 10) (hp : -89 ≤ cam.Pitch) :
    11 ≤ (ProcessMouseMovement M cam xoffset 1000 true).Pitch := by
  rw [processMouseMovement_pitch, hs]
  simp only [if_true]
  have e : cam.Pitch + 1000 * (1 / 10) = cam.Pitch + 100 := by norm_num
  rw [e]
  split_ifs <;> linarith

theorem lookUpRepeatedly_cons (M : MathLib α) (cam : Camera α) (a : α) (xs : List α) :
    lookUpRepeatedly M cam (a :: xs) =
      lookUpRepeatedly M (ProcessMouseMovement M cam a 1000 true) xs := rfl

theorem lookUpRepeatedly_pitch_of_ge (M : MathLib α) (xoffsets : List α) :
    ∀ cam : Camera α, cam.MouseSensitivity = 1 / 10 → -11 ≤ cam.Pitch → xoffsets ≠ [] →
      (lookUpRepeatedly M cam xoffsets).Pitch = 89 := by
  induction xoffsets with
  | nil => intro cam _ _ h; exact absurd rfl h
  | cons a rest ih =>
    intro cam hs hp _
    rw [lookUpRepeatedly_cons]
    have h1 := lookUp_pitch_of_ge M cam a hs hp
    cases rest with
    | nil => exact h1
    | cons b rest2 =>
      apply ih _ (by rw [processMouseMovement_sensitivity]; exact hs) (by rw [h1]; norm_num)
      simp

theorem lookUpRepeatedly_pitch_le (M : MathLib α) (xoffsets : List α) :
    ∀ cam : Camera α, cam.Pitch ≤ 89 → (lookUpRepeatedly M cam xoffsets).Pitch ≤ 89 := by
  induction xoffsets with
  | nil => intro cam h; exact h
  | cons a rest ih =>
    intro cam _
    rw [lookUpRepeatedly_cons]
    exact ih _ (constrained_pitch_mem M cam a 1000).2

theorem moveCandidate_zero (M : MathLib α) (cam : Camera α) (direction : Camera_Movement) :
    moveCandidate M cam direction 0 = cam.Position := by
  cases direction <;> simp [moveCandidate, Vec3.scale, Vec3.add, Vec3.sub]

theorem moveCandidate_y_of_forward_backward (M : MathLib α) (cam : Camera α)
    (direction : Camera_Movement) (deltaTime : α)
    (hdir : direction = Camera_Movement.FORWARD ∨ direction = Camera_Movement.BACKWARD) :
    (moveCandidate M cam direction deltaTime).y = cam.Position.y := by
  rcases hdir with h | h <;> subst h <;>
    simp [moveCandidate, normalize, Vec3.scale, Vec3.add, Vec3.sub]

theorem dot_cross_self_left (a b : Vec3 α) : dot a (cross a b) = 0 := by
  simp only [dot, cross]; ring

theorem dot_cross_self_right (a b : Vec3 α) : dot b (cross a b) = 0 := by
  simp only [dot, cross]; ring

/-- Lagrange's identity for `glm::cross`. -/
theorem dot_cross_cross (a b : Vec3 α) :
    dot (cross a b) (cross a b) = dot a a * dot b b - dot a b ^ 2 := by
  simp only [dot, cross]; ring

theorem dot_normalize_right (M : MathLib α) (a v : Vec3 α) :
    dot a (normalize M v) = inversesqrt M (dot v v) * dot a v := by
  simp only [dot, normalize, Vec3.scale]; ring

theorem dot_normalize_normalize (M : MathLib α) (v : Vec3 α) :
    dot (normalize M v) (normalize M v) = inversesqrt M (dot v v) ^ 2 * dot v v := by
  simp only [dot, normalize, Vec3.scale]; ring

/-- Truncation toward zero is monotone. -/
theorem toInt_mono {a b : α} (h : a ≤ b) : toInt a ≤ toInt b := by
  unfold toInt
  split_ifs with ha hb hb
  · exact Int.floor_mono h
  · exact absurd (le_trans ha h) hb
  · have h1 : ⌈a⌉ ≤ 0 := Int.ceil_le.mpr (by simpa using le_of_lt (not_le.mp ha))
    have h2 : 0 ≤ ⌊b⌋ := Int.floor_nonneg.mpr hb
    exact le_trans h1 h2
  · exact Int.ceil_mono h

/-- Truncation toward zero moves by at most one over a distance of at most one. -/
theorem toInt_le_add_one {a b : α} (h : b ≤ a + 1) : toInt b ≤ toInt a + 1 := by
  unfold toInt
  split_ifs with hb ha ha
  · have := Int.floor_mono h
    rwa [Int.floor_add_one] at this
  · have ha' : a < 0 := not_le.mp ha
    have h1 : ⌊b⌋ ≤ 0 := by
      have : ⌊b⌋ < 1 := Int.floor_lt.mpr (by push_cast; linarith)
      omega
    have h2 : -1 ≤ ⌈a⌉ := by
      have : (-1 : ℤ) < ⌈a⌉ + 1 := by
        have h3 : ((-1 : ℤ) : α) ≤ a := by push_cast; linarith
        have := Int.le_ceil a
        have h4 : ((-1 : ℤ) : α) ≤ (⌈a⌉ : α) := le_trans h3 this
        have h5 : (-1 : ℤ) ≤ ⌈a⌉ := by exact_mod_cast h4
        omega
      omega
    omega
  · have hb' : b < 0 := not_le.mp hb
    have h1 : ⌈b⌉ ≤ 0 := Int.ceil_le.mpr (by simpa using le_of_lt hb')
    have h2 : 0 ≤ ⌊a⌋ := Int.floor_nonneg.mpr ha
    omega
  · have := Int.ceil_mono h
    rwa [Int.ceil_add_one] at this

/-- The two flags of `CheckCollision` when the bounds check passes. -/
theorem checkCollision_of_inRange (cam : Camera α) (pos : Vec3 α) (maze : Maze)
    (mazeWidth mazeHeight : Int) (tileSize : α)
    (h : IndicesInRange cam pos mazeWidth mazeHeight tileSize) :
    CheckCollision cam pos maze mazeWidth mazeHeight tileSize =
      { collisionX := decide (maze (centreRow pos tileSize) (indexX cam pos tileSize) = 1 ∨
          maze (centreRow pos tileSize) (indexXMinus cam pos tileSize) = 1)
        collisionZ := decide (maze (indexZ cam pos tileSize) (centreCol pos tileSize) = 1 ∨
          maze (indexZMinus cam pos tileSize) (centreCol pos tileSize) = 1) } := by
  obtain ⟨⟨h1, h2⟩, ⟨h3, h4⟩, ⟨h5, h6⟩, h7, h8⟩ := h
  simp only [indexX, indexXMinus, indexZ, indexZMinus] at h1 h2 h3 h4 h5 h6 h7 h8
  unfold CheckCollision
  simp only [centreRow, centreCol, indexX, indexXMinus, indexZ, indexZMinus]
  rw [if_pos ⟨h1, h2, h5, h6, h3, h4, h7, h8⟩]

/-- Each unoffset index lies between the two margin-offset indices of its axis. -/
theorem centre_between (cam : Camera α) (pos : Vec3 α) (tileSize : α) (hts : 0 < tileSize) :
    ((indexXMinus cam pos tileSize ≤ centreCol pos tileSize ∧
        centreCol pos tileSize ≤ indexX cam pos tileSize) ∨
      (indexX cam pos tileSize ≤ centreCol pos tileSize ∧
        centreCol pos tileSize ≤ indexXMinus cam pos tileSize)) ∧
    ((indexZMinus cam pos tileSize ≤ centreRow pos tileSize ∧
        centreRow pos tileSize ≤ indexZ cam pos tileSize) ∨
      (indexZ cam pos tileSize ≤ centreRow pos tileSize ∧
        centreRow pos tileSize ≤ indexZMinus cam pos tileSize)) := by
  simp only [indexX, indexXMinus, indexZ, indexZMinus, centreRow, centreCol]
  rcases le_total 0 cam.collisionMargin with hm | hm
  · refine ⟨Or.inl ⟨toInt_mono ?_, toInt_mono ?_⟩, Or.inl ⟨toInt_mono ?_, toInt_mono ?_⟩⟩ <;>
      exact (div_le_div_iff_of_pos_right hts).mpr (by linarith)
  · refine ⟨Or.inr ⟨toInt_mono ?_, toInt_mono ?_⟩, Or.inr ⟨toInt_mono ?_, toInt_mono ?_⟩⟩ <;>
      exact (div_le_div_iff_of_pos_right hts).mpr (by linarith)

/-- When the bounds check passes, the unoffset indices are in range too. -/
theorem centre_inRange (cam : Camera α) (pos : Vec3 α) (mazeWidth mazeHeight : Int)
    (tileSize : α) (hts : 0 < tileSize)
    (h : IndicesInRange cam pos mazeWidth mazeHeight tileSize) :
    (0 ≤ centreRow pos tileSize ∧ centreRow pos tileSize < mazeHeight) ∧
    (0 ≤ centreCol pos tileSize ∧ centreCol pos tileSize < mazeWidth) := by
  obtain ⟨⟨h1, h2⟩, ⟨h3, h4⟩, ⟨h5, h6⟩, h7, h8⟩ := h
  obtain ⟨hc, hr⟩ := centre_between cam pos tileSize hts
  constructor
  · rcases hr with ⟨a, b⟩ | ⟨a, b⟩ <;> constructor <;> omega
  · rcases hc with ⟨a, b⟩ | ⟨a, b⟩ <;> constructor <;> omega

theorem applyOp_worldUp (M : MathLib α) (cam : Camera α) (op : Op α) :
    (applyOp M cam op).WorldUp = cam.WorldUp := by
  cases op with
  | keyboard d dt mz w hh ts =>
    simp only [applyOp, ProcessKeyboard]
    split_ifs <;> rfl
  | mouseMovement xo yo cp => rfl
  | mouseScroll yo => rfl

theorem run_worldUp (M : MathLib α) (ops : List (Op α)) :
    ∀ cam : Camera α, (run M cam ops).WorldUp = cam.WorldUp := by
  induction ops with
  | nil => intro cam; rfl
  | cons op rest ih =>
    intro cam
    have hstep : run M cam (op :: rest) = run M (applyOp M cam op) rest := rfl
    rw [hstep, ih, applyOp_worldUp]

theorem lookups_of_inRange (cam : Camera α) (pos : Vec3 α) (mazeWidth mazeHeight : Int)
    (tileSize : α) (h : IndicesInRange cam pos mazeWidth mazeHeight tileSize) :
    lookups cam pos mazeWidth mazeHeight tileSize =
      [(centreRow pos tileSize, indexX cam pos tileSize),
       (centreRow pos tileSize, indexXMinus cam pos tileSize),
       (indexZ cam pos tileSize, centreCol pos tileSize),
       (indexZMinus cam pos tileSize, centreCol pos tileSize)] := by
  obtain ⟨⟨h1, h2⟩, ⟨h3, h4⟩, ⟨h5, h6⟩, h7, h8⟩ := h
  simp only [indexX, indexXMinus, indexZ, indexZMinus] at h1 h2 h3 h4 h5 h6 h7 h8
  unfold lookups
  simp only [centreRow, centreCol, indexX, indexXMinus, indexZ, indexZMinus]
  rw [if_pos ⟨h1, h2, h5, h6, h3, h4, h7, h8⟩]

theorem lookups_of_not_inRange (cam : Camera α) (pos : Vec3 α) (mazeWidth mazeHeight : Int)
    (tileSize : α) (h : ¬ IndicesInRange cam pos mazeWidth mazeHeight tileSize) :
    lookups cam pos mazeWidth mazeHeight tileSize = [] := by
  unfold lookups
  simp only
  rw [if_neg]
  intro hin
  apply h
  simp only [IndicesInRange, indexX, indexXMinus, indexZ, indexZMinus]
  tauto

theorem updateCameraVectors_right_y (M : MathLib α) (cam : Camera α)
    (hup : cam.WorldUp = ⟨0, 1, 0⟩) : (updateCameraVectors M cam).Right.y = 0 := by
  simp [updateCameraVectors, normalize, cross, Vec3.scale, hup]

theorem moveCandidate_y_of_left_right (M : MathLib α) (cam : Camera α)
    (direction : Camera_Movement) (deltaTime : α) (hr : cam.Right.y = 0)
    (hdir : direction = Camera_Movement.LEFT ∨ direction = Camera_Movement.RIGHT) :
    (moveCandidate M cam direction deltaTime).y = cam.Position.y := by
  rcases hdir with h | h <;> subst h <;>
    simp [moveCandidate, Vec3.scale, Vec3.add, Vec3.sub, hr]

theorem index_centre_or (cam : Camera α) (pos : Vec3 α) (tileSize : α) (hts : 0 < tileSize)
    (hm0 : 0 ≤ 2 * cam.collisionMargin) (hm1 : 2 * cam.collisionMargin ≤ tileSize) :
    centreCol pos tileSize = indexX cam pos tileSize ∨
      centreCol pos tileSize = indexXMinus cam pos tileSize := by
  have h1 : indexXMinus cam pos tileSize ≤ centreCol pos tileSize :=
    toInt_mono ((div_le_div_iff_of_pos_right hts).mpr (by linarith))
  have h2 : centreCol pos tileSize ≤ indexX cam pos tileSize :=
    toInt_mono ((div_le_div_iff_of_pos_right hts).mpr (by linarith))
  have h3 : indexX cam pos tileSize ≤ indexXMinus cam pos tileSize + 1 := by
    apply toInt_le_add_one
    rw [div_add_one (ne_of_gt hts)]
    exact (div_le_div_iff_of_pos_right hts).mpr (by linarith)
  omega

theorem processKeyboard_of_z_only (M : MathLib α) (cam : Camera α)
    (direction : Camera_Movement) (deltaTime : α) (maze : Maze)
    (mazeWidth mazeHeight : Int) (tileSize : α)
    (h : CheckCollision cam (moveCandidate M cam direction deltaTime) maze mazeWidth mazeHeight
      tileSize = { collisionX := false, collisionZ := true }) :
    (ProcessKeyboard M cam direction deltaTime maze mazeWidth mazeHeight tileSize).Position
      = ⟨(moveCandidate M cam direction deltaTime).x, (moveCandidate M cam direction deltaTime).y,
          cam.Position.z⟩ := by
  simp [ProcessKeyboard, newPositionOf_eq_moveCandidate, h]

theorem blocked_ahead_probe (cam : Camera α) (cand : Vec3 α) (maze : Maze)
    (mazeWidth mazeHeight : Int) (tileSize : α) (r c : Int)
    (hblocked : maze (r - 1) c = 1)
    (hrow : centreRow cand tileSize = r) (hcol : centreCol cand tileSize = c)
    (hzm : indexZMinus cam cand tileSize = r - 1)
    (hx : maze r (indexX cam cand tileSize) = 0) (hxm : maze r (indexXMinus cam cand tileSize) = 0)
    (hin : IndicesInRange cam cand mazeWidth mazeHeight tileSize) :
    CheckCollision cam cand maze mazeWidth mazeHeight tileSize
      = { collisionX := false, collisionZ := true } := by
  rw [checkCollision_of_inRange cam cand maze mazeWidth mazeHeight tileSize hin,
    hrow, hcol, hzm, hx, hxm, hblocked]
  simp

/-- Without rounding, `CheckCollisionRounded` is `CheckCollision`. -/
theorem checkCollisionRounded_id (cam : Camera α) (pos : Vec3 α) (maze : Maze)
    (mazeWidth mazeHeight : Int) (tileSize : α) :
    CheckCollisionRounded (fun a => a) cam pos maze mazeWidth mazeHeight tileSize
      = CheckCollision cam pos maze mazeWidth mazeHeight tileSize := rfl

end Lemmas

/-! ### Exact real arithmetic -/

theorem length_real_eq_one_iff (v : Vec3 ℝ) : length realMath v = 1 ↔ dot v v = 1 := by
  simp only [length, realMath]
  exact Real.sqrt_eq_one

theorem normalize_real_of_unit (v : Vec3 ℝ) (h : dot v v = 1) : normalize realMath v = v := by
  simp [normalize, inversesqrt, realMath, h, Vec3.scale]

theorem dot_normalize_real_self (v : Vec3 ℝ) (h : dot v v ≠ 0) :
    dot (normalize realMath v) (normalize realMath v) = 1 := by
  have hnn : 0 ≤ dot v v := by
    simp only [dot]
    nlinarith [mul_self_nonneg v.x, mul_self_nonneg v.y, mul_self_nonneg v.z]
  rw [dot_normalize_normalize]
  simp only [inversesqrt, realMath, one_div, inv_pow, Real.sq_sqrt hnn]
  exact inv_mul_cancel₀ h

/-- The spherical-to-Cartesian vector of line 143 to 145 has squared length 1. -/
theorem eulerFront_unit (a b : ℝ) :
    dot (⟨Real.cos a * Real.cos b, Real.sin b, Real.sin a * Real.cos b⟩ : Vec3 ℝ)
      ⟨Real.cos a * Real.cos b, Real.sin b, Real.sin a * Real.cos b⟩ = 1 := by
  simp only [dot]
  nlinarith [Real.sin_sq_add_cos_sq a, Real.sin_sq_add_cos_sq b]

theorem updateCameraVectors_front (cam : Camera ℝ) :
    (updateCameraVectors realMath cam).Front =
      ⟨Real.cos (radians realMath cam.Yaw) * Real.cos (radians realMath cam.Pitch),
       Real.sin (radians realMath cam.Pitch),
       Real.sin (radians realMath cam.Yaw) * Real.cos (radians realMath cam.Pitch)⟩ := by
  have h := normalize_real_of_unit _ (eulerFront_unit (radians realMath cam.Yaw)
    (radians realMath cam.Pitch))
  simp only [updateCameraVectors]
  exact h

theorem updateCameraVectors_orthonormal_of_cos_ne_zero (cam : Camera ℝ)
    (hup : cam.WorldUp = ⟨0, 1, 0⟩) (hcos : Real.cos (radians realMath cam.Pitch) ≠ 0) :
    Orthonormal realMath (updateCameraVectors realMath cam).Front
      (updateCameraVectors realMath cam).Right (updateCameraVectors realMath cam).Up := by
  set F := (updateCameraVectors realMath cam).Front with hF
  have hFu : dot F F = 1 := by
    rw [hF, updateCameraVectors_front]; exact eulerFront_unit _ _
  have hR : (updateCameraVectors realMath cam).Right
      = normalize realMath (cross F cam.WorldUp) := rfl
  have hU : (updateCameraVectors realMath cam).Up =
      normalize realMath (cross (updateCameraVectors realMath cam).Right F) := rfl
  set R := (updateCameraVectors realMath cam).Right with hRdef
  have hX : dot (cross F cam.WorldUp) (cross F cam.WorldUp) ≠ 0 := by
    rw [hup, hF, updateCameraVectors_front]
    simp only [dot, cross]
    have hsc := Real.sin_sq_add_cos_sq (radians realMath cam.Yaw)
    intro h0
    apply hcos
    have h2 : Real.cos (radians realMath cam.Pitch) ^ 2 = 0 := by nlinarith
    exact (pow_eq_zero_iff two_ne_zero).mp h2
  have hRu : dot R R = 1 := by rw [hR]; exact dot_normalize_real_self _ hX
  have hFR : dot F R = 0 := by
    rw [hR, dot_normalize_right, dot_cross_self_left, mul_zero]
  have hRF : dot R F = 0 := by
    rw [← hFR]; simp only [dot]; ring
  have hCu : dot (cross R F) (cross R F) = 1 := by
    rw [dot_cross_cross, hRu, hFu, hRF]; norm_num
  have hUe : (updateCameraVectors realMath cam).Up = cross R F := by
    rw [hU]; exact normalize_real_of_unit _ hCu
  rw [hUe]
  exact ⟨⟨(length_real_eq_one_iff _).mpr hFu, (length_real_eq_one_iff _).mpr hRu,
    (length_real_eq_one_iff _).mpr hCu⟩, hFR, dot_cross_self_right R F, dot_cross_self_left R F⟩

theorem cos_radians_pos_of_abs_lt_ninety (pitch : ℝ) (h1 : -90 < pitch) (h2 : pitch < 90) :
    0 < Real.cos (radians realMath pitch) := by
  apply Real.cos_pos_of_mem_Ioo
  simp only [radians, realMath]
  constructor <;> nlinarith [Real.pi_pos]

theorem horizontalFront_of_derived (cam : Camera ℝ)
    (hc : 0 < Real.cos (radians realMath cam.Pitch)) :
    normalize realMath ⟨(updateCameraVectors realMath cam).Front.x, 0,
        (updateCameraVectors realMath cam).Front.z⟩
      = ⟨Real.cos (radians realMath cam.Yaw), 0, Real.sin (radians realMath cam.Yaw)⟩ := by
  rw [updateCameraVectors_front]
  set a := radians realMath cam.Yaw
  set c := Real.cos (radians realMath cam.Pitch)
  have hd : dot (⟨Real.cos a * c, 0, Real.sin a * c⟩ : Vec3 ℝ) ⟨Real.cos a * c, 0, Real.sin a * c⟩
      = c ^ 2 := by
    simp only [dot]
    nlinarith [Real.sin_sq_add_cos_sq a]
  have hs : Real.sqrt (c ^ 2) = c := Real.sqrt_sq (le_of_lt hc)
  simp only [normalize, inversesqrt, hd, realMath, hs, Vec3.scale]
  have hne : c ≠ 0 := ne_of_gt hc
  congr 1 <;> field_simp

theorem length_horizontal_scale (a v : ℝ) :
    length realMath ((⟨Real.cos a, 0, Real.sin a⟩ : Vec3 ℝ).scale v) = |v| := by
  have e : dot ((⟨Real.cos a, 0, Real.sin a⟩ : Vec3 ℝ).scale v)
      ((⟨Real.cos a, 0, Real.sin a⟩ : Vec3 ℝ).scale v) = v ^ 2 := by
    simp only [dot, Vec3.scale]
    nlinarith [Real.sin_sq_add_cos_sq a]
  simp only [length, e, realMath]
  exact Real.sqrt_sq_eq_abs v

/-- The cosine of a rational number is not zero: its zeros are the odd
multiples of π/2, and π is irrational. -/
theorem cos_rat_ne_zero (r : ℚ) : Real.cos (r : ℝ) ≠ 0 := by
  intro h
  obtain ⟨k, hk⟩ := Real.cos_eq_zero_iff.mp h
  have hodd : (2 * (k : ℝ) + 1) ≠ 0 := by
    have : (2 * k + 1 : ℤ) ≠ 0 := by omega
    exact_mod_cast this
  apply irrational_pi
  refine ⟨2 * r / (2 * k + 1), ?_⟩
  push_cast
  rw [hk]
  field_simp

theorem radians_machineMath (k : ℚ) (d : ℝ) : radians (machineMath k) d = d * (k : ℝ) := by
  simp only [radians, machineMath]
  ring

theorem radians_realMath_rescaled (k : ℚ) (d : ℝ) :
    radians realMath (d * (k : ℝ) * 180 / Real.pi) = radians (machineMath k) d := by
  rw [radians_machineMath]
  simp only [radians, realMath]
  field_simp

/-- With the constant `k`, `updateCameraVectors` computes the basis that the
exact constant computes at the rescaled angles. -/
theorem updateCameraVectors_machineMath (k : ℚ) (cam : Camera ℝ) :
    (updateCameraVectors (machineMath k) cam).Front =
        (updateCameraVectors realMath
          { cam with Yaw := cam.Yaw * (k : ℝ) * 180 / Real.pi
                     Pitch := cam.Pitch * (k : ℝ) * 180 / Real.pi }).Front ∧
    (updateCameraVectors (machineMath k) cam).Right =
        (updateCameraVectors realMath
          { cam with Yaw := cam.Yaw * (k : ℝ) * 180 / Real.pi
                     Pitch := cam.Pitch * (k : ℝ) * 180 / Real.pi }).Right ∧
    (updateCameraVectors (machineMath k) cam).Up =
        (updateCameraVectors realMath
          { cam with Yaw := cam.Yaw * (k : ℝ) * 180 / Real.pi
                     Pitch := cam.Pitch * (k : ℝ) * 180 / Real.pi }).Up := by
  have hy := radians_realMath_rescaled k cam.Yaw
  have hp := radians_realMath_rescaled k cam.Pitch
  simp only [updateCameraVectors, hy, hp]
  exact ⟨rfl, rfl, rfl⟩

theorem orthonormal_machineMath (k : ℚ) (a b c : Vec3 ℝ) :
    Orthonormal (machineMath k) a b c ↔ Orthonormal realMath a b c := Iff.rfl

/-- Orthonormality of the basis for a rational pitch and a rational
degrees-to-radians constant. -/
theorem updateCameraVectors_orthonormal_of_rat_pitch (k : ℚ) (cam : Camera ℝ) (pitch : ℚ)
    (hup : cam.WorldUp = ⟨0, 1, 0⟩) (hp : cam.Pitch = (pitch : ℝ)) :
    Orthonormal (machineMath k) (updateCameraVectors (machineMath k) cam).Front
      (updateCameraVectors (machineMath k) cam).Right
      (updateCameraVectors (machineMath k) cam).Up := by
  obtain ⟨hF, hR, hU⟩ := updateCameraVectors_machineMath k cam
  rw [hF, hR, hU, orthonormal_machineMath]
  have hr : radians realMath (cam.Pitch * (k : ℝ) * 180 / Real.pi) = ((pitch * k : ℚ) : ℝ) := by
    rw [radians_realMath_rescaled, radians_machineMath, hp]
    push_cast
    ring
  have hcos : Real.cos (radians realMath (cam.Pitch * (k : ℝ) * 180 / Real.pi)) ≠ 0 := by
    rw [hr]
    exact cos_rat_ne_zero _
  exact updateCameraVectors_orthonormal_of_cos_ne_zero
    { cam with Yaw := cam.Yaw * (k : ℝ) * 180 / Real.pi
               Pitch := cam.Pitch * (k : ℝ) * 180 / Real.pi } hup hcos

/-! ### Evaluation on the concrete inputs -/

theorem ratSqrt_one : ratSqrt 1 = 1 := by
  simp [ratSqrt]

theorem nearEdge_left_candidate :
    newPositionOf ratMath nearEdge Camera_Movement.LEFT (1 / 5) = ⟨-3 / 10, 0, 1 / 2⟩ := by
  simp [newPositionOf, nearEdge, Vec3.sub, Vec3.scale, SPEED]
  norm_num

theorem nearEdge_left_probe :
    CheckCollision nearEdge ⟨-3 / 10, 0, 1 / 2⟩ openMaze 10 10 1
      = { collisionX := false, collisionZ := false } := by
  have e1 : toInt ((-3 / 10 + 3 / 25 : ℚ) / 1) = 0 :=
    toInt_of_neg (by norm_num) (by norm_num) (by norm_num)
  have e2 : toInt ((-3 / 10 - 3 / 25 : ℚ) / 1) = 0 :=
    toInt_of_neg (by norm_num) (by norm_num) (by norm_num)
  have e3 : toInt ((1 / 2 + 3 / 25 : ℚ) / 1) = 0 :=
    toInt_of_nonneg (by norm_num) (by norm_num) (by norm_num)
  have e4 : toInt ((1 / 2 - 3 / 25 : ℚ) / 1) = 0 :=
    toInt_of_nonneg (by norm_num) (by norm_num) (by norm_num)
  simp only [CheckCollision, nearEdge, e1, e2, e3, e4, openMaze]
  simp

theorem nearCorner_forward_candidate :
    newPositionOf ratMath nearCorner Camera_Movement.FORWARD (1 / 10)
      = ⟨41 / 20, 0, 21 / 10⟩ := by
  have hd : dot (⟨3 / 5, 0, 4 / 5⟩ : Vec3 ℚ) ⟨3 / 5, 0, 4 / 5⟩ = 1 := by
    simp only [dot]; norm_num
  simp only [newPositionOf, nearCorner, normalize, inversesqrt, hd, ratMath, ratSqrt_one]
  simp [Vec3.add, Vec3.scale, SPEED]
  norm_num

theorem nearCorner_forward_probe :
    CheckCollision nearCorner ⟨41 / 20, 0, 21 / 10⟩ cornerMaze 10 10 1
      = { collisionX := true, collisionZ := false } := by
  have e1 : toInt ((41 / 20 + 3 / 25 : ℚ) / 1) = 2 :=
    toInt_of_nonneg (by norm_num) (by norm_num) (by norm_num)
  have e2 : toInt ((41 / 20 - 3 / 25 : ℚ) / 1) = 1 :=
    toInt_of_nonneg (by norm_num) (by norm_num) (by norm_num)
  have e3 : toInt ((21 / 10 + 3 / 25 : ℚ) / 1) = 2 :=
    toInt_of_nonneg (by norm_num) (by norm_num) (by norm_num)
  have e4 : toInt ((21 / 10 - 3 / 25 : ℚ) / 1) = 1 :=
    toInt_of_nonneg (by norm_num) (by norm_num) (by norm_num)
  have e5 : toInt ((21 / 10 : ℚ) / 1) = 2 :=
    toInt_of_nonneg (by norm_num) (by norm_num) (by norm_num)
  have e6 : toInt ((41 / 20 : ℚ) / 1) = 2 :=
    toInt_of_nonneg (by norm_num) (by norm_num) (by norm_num)
  simp only [CheckCollision, nearCorner, e1, e2, e3, e4, e5, e6, cornerMaze]
  simp

/-- Any rational camera with margin `0.12` at `z = 2.2` and `1.12 ≤ x < 1.88`
stands in front of the blocked cell of `aheadMaze`. -/
theorem aheadMaze_scene (cam : Camera ℚ) (hm : cam.collisionMargin = 3 / 25)
    (hz : cam.Position.z = 11 / 5) (hx1 : 28 / 25 ≤ cam.Position.x)
    (hx2 : cam.Position.x < 47 / 25) : BlockedAhead cam aheadMaze 1 2 1 := by
  have e1 : centreRow cam.Position (1 : ℚ) = 2 := by
    simp only [centreRow, hz]
    exact toInt_of_nonneg (by norm_num) (by norm_num) (by norm_num)
  have e2 : centreCol cam.Position (1 : ℚ) = 1 := by
    simp only [centreCol]
    exact toInt_of_nonneg (by push_cast; linarith) (by push_cast; linarith) (by linarith)
  have e3 : indexX cam cam.Position (1 : ℚ) = 1 := by
    simp only [indexX, hm]
    exact toInt_of_nonneg (by push_cast; linarith) (by push_cast; linarith) (by linarith)
  have e4 : indexXMinus cam cam.Position (1 : ℚ) = 1 := by
    simp only [indexXMinus, hm]
    exact toInt_of_nonneg (by push_cast; linarith) (by push_cast; linarith) (by linarith)
  have e5 : indexZ cam cam.Position (1 : ℚ) = 2 := by
    simp only [indexZ, hm, hz]
    exact toInt_of_nonneg (by norm_num) (by norm_num) (by norm_num)
  have e6 : indexZMinus cam cam.Position (1 : ℚ) = 2 := by
    simp only [indexZMinus, hm, hz]
    exact toInt_of_nonneg (by norm_num) (by norm_num) (by norm_num)
  refine ⟨⟨by norm_num, by rw [hm]; norm_num, by rw [hm]; norm_num⟩,
    ⟨e1, e2, e3, e4, e5, e6⟩, ?_⟩
  simp [aheadMaze]

theorem facingBlock_candidate :
    moveCandidate ratMath facingBlock Camera_Movement.FORWARD (3 / 50)
      = ⟨3 / 2, 0, 41 / 20⟩ := by
  have hd : dot (⟨0, 0, -1⟩ : Vec3 ℚ) ⟨0, 0, -1⟩ = 1 := by
    simp only [dot]; norm_num
  simp only [moveCandidate, facingBlock, normalize, inversesqrt, hd, ratMath, ratSqrt_one]
  simp [Vec3.add, Vec3.scale, SPEED]
  norm_num

theorem passingBlock_candidate :
    moveCandidate ratMath passingBlock Camera_Movement.FORWARD (1 / 10)
      = ⟨41 / 20, 0, 41 / 20⟩ := by
  have hd : dot (⟨4 / 5, 0, -3 / 5⟩ : Vec3 ℚ) ⟨4 / 5, 0, -3 / 5⟩ = 1 := by
    simp only [dot]; norm_num
  simp only [moveCandidate, passingBlock, normalize, inversesqrt, hd, ratMath, ratSqrt_one]
  simp [Vec3.add, Vec3.scale, SPEED]
  norm_num

theorem facingBlock_indices :
    centreRow (⟨3 / 2, 0, 41 / 20⟩ : Vec3 ℚ) 1 = 2 ∧
    indexZMinus facingBlock ⟨3 / 2, 0, 41 / 20⟩ 1 = 1 ∧
    IndicesInRange facingBlock ⟨3 / 2, 0, 41 / 20⟩ 10 10 1 := by
  have e1 : centreRow (⟨3 / 2, 0, 41 / 20⟩ : Vec3 ℚ) 1 = 2 :=
    toInt_of_nonneg (by norm_num) (by norm_num) (by norm_num)
  have e2 : indexZMinus facingBlock ⟨3 / 2, 0, 41 / 20⟩ 1 = 1 :=
    toInt_of_nonneg (by norm_num [facingBlock]) (by norm_num [facingBlock])
      (by norm_num [facingBlock])
  have e3 : indexZ facingBlock ⟨3 / 2, 0, 41 / 20⟩ 1 = 2 :=
    toInt_of_nonneg (by norm_num [facingBlock]) (by norm_num [facingBlock])
      (by norm_num [facingBlock])
  have e4 : indexX facingBlock ⟨3 / 2, 0, 41 / 20⟩ 1 = 1 :=
    toInt_of_nonneg (by norm_num [facingBlock]) (by norm_num [facingBlock])
      (by norm_num [facingBlock])
  have e5 : indexXMinus facingBlock ⟨3 / 2, 0, 41 / 20⟩ 1 = 1 :=
    toInt_of_nonneg (by norm_num [facingBlock]) (by norm_num [facingBlock])
      (by norm_num [facingBlock])
  refine ⟨e1, e2, ?_⟩
  simp only [IndicesInRange, e2, e3, e4, e5]
  decide

theorem passingBlock_indices :
    centreRow (⟨41 / 20, 0, 41 / 20⟩ : Vec3 ℚ) 1 = 2 ∧
    centreCol (⟨41 / 20, 0, 41 / 20⟩ : Vec3 ℚ) 1 = 2 ∧
    indexX passingBlock ⟨41 / 20, 0, 41 / 20⟩ 1 = 2 ∧
    indexXMinus passingBlock ⟨41 / 20, 0, 41 / 20⟩ 1 = 1 ∧
    indexZ passingBlock ⟨41 / 20, 0, 41 / 20⟩ 1 = 2 ∧
    indexZMinus passingBlock ⟨41 / 20, 0, 41 / 20⟩ 1 = 1 := by
  refine ⟨?_, ?_, ?_, ?_, ?_, ?_⟩ <;>
    exact toInt_of_nonneg (by norm_num [passingBlock]) (by norm_num [passingBlock])
      (by norm_num [passingBlock])

theorem nearCorner_candidate_inRange :
    IndicesInRange nearCorner ⟨41 / 20, 0, 21 / 10⟩ 10 10 1 := by
  have e1 : indexX nearCorner ⟨41 / 20, 0, 21 / 10⟩ 1 = 2 :=
    toInt_of_nonneg (by norm_num [nearCorner]) (by norm_num [nearCorner])
      (by norm_num [nearCorner])
  have e2 : indexXMinus nearCorner ⟨41 / 20, 0, 21 / 10⟩ 1 = 1 :=
    toInt_of_nonneg (by norm_num [nearCorner]) (by norm_num [nearCorner])
      (by norm_num [nearCorner])
  have e3 : indexZ nearCorner ⟨41 / 20, 0, 21 / 10⟩ 1 = 2 :=
    toInt_of_nonneg (by norm_num [nearCorner]) (by norm_num [nearCorner])
      (by norm_num [nearCorner])
  have e4 : indexZMinus nearCorner ⟨41 / 20, 0, 21 / 10⟩ 1 = 1 :=
    toInt_of_nonneg (by norm_num [nearCorner]) (by norm_num [nearCorner])
      (by norm_num [nearCorner])
  simp only [IndicesInRange, e1, e2, e3, e4]
  decide

/-- A rational within a half of the integer `m` rounds to `m`. -/
theorem roundHalfEven_eq_of_near {r : ℚ} {m : Int} (h1 : (m : ℚ) - 1 / 2 < r)
    (h2 : r < (m : ℚ) + 1 / 2) : roundHalfEven r = m := by
  unfold roundHalfEven
  rcases le_or_lt (m : ℚ) r with h | h
  · have hf : ⌊r⌋ = m := Int.floor_eq_iff.mpr ⟨h, by linarith⟩
    have hfr : Int.fract r < 1 / 2 := by
      rw [Int.fract, hf]; linarith
    rw [if_pos hfr, hf]
  · have hf : ⌊r⌋ = m - 1 := Int.floor_eq_iff.mpr ⟨by push_cast; linarith, by push_cast; linarith⟩
    have hfr : 1 / 2 < Int.fract r := by
      rw [Int.fract, hf]; push_cast; linarith
    rw [if_neg (not_lt.mpr (le_of_lt hfr)), if_pos hfr, hf]
    omega

theorem log_two_eq {q : ℚ} {e : Int} (hq : 0 < q) (h1 : (2 : ℚ) ^ e ≤ q)
    (h2 : q < (2 : ℚ) ^ (e + 1)) : Int.log 2 q = e := by
  have a : e ≤ Int.log 2 q :=
    (Int.zpow_le_iff_le_log (by norm_num : 1 < 2) hq).mp (by exact_mod_cast h1)
  have b : Int.log 2 q < e + 1 :=
    (Int.lt_zpow_iff_log_lt (by norm_num : 1 < 2) hq).mp (by exact_mod_cast h2)
  omega

/-- The value of `binary32` at a positive `q` with `2 ^ e ≤ q < 2 ^ (e + 1)`
whose quotient by `2 ^ (e - 23)` is within a half of the integer `m`. -/
theorem binary32_eq_of_near {q : ℚ} (e m : Int) (hq : 0 < q) (h1 : (2 : ℚ) ^ e ≤ q)
    (h2 : q < (2 : ℚ) ^ (e + 1)) (h3 : (m : ℚ) - 1 / 2 < q / 2 ^ (e - 23))
    (h4 : q / 2 ^ (e - 23) < (m : ℚ) + 1 / 2) :
    binary32 q = (m : ℚ) * 2 ^ (e - 23) := by
  unfold binary32
  rw [if_neg (ne_of_gt hq), abs_of_pos hq, log_two_eq hq h1 h2, roundHalfEven_eq_of_near h3 h4]

/-- The float `(0.9f + 0.1f) / 0.2f` is `5.0f`: the sum rounds up to `1.0f`. -/
theorem binary32_plus_margin :
    binary32 (binary32 (7549747 / 8388608 + 13421773 / 134217728) / (13421773 / 67108864))
      = 5 := by
  have h1 : binary32 (7549747 / 8388608 + 13421773 / 134217728) = 1 := by
    rw [binary32_eq_of_near (-1) 16777216 (by norm_num) (by norm_num) (by norm_num)
      (by norm_num) (by norm_num)]
    norm_num
  rw [h1, binary32_eq_of_near 2 10485760 (by norm_num) (by norm_num) (by norm_num)
    (by norm_num) (by norm_num)]
  norm_num

/-- The float `(0.9f - 0.1f) / 0.2f` is just below 4. -/
theorem binary32_minus_margin :
    binary32 (binary32 (7549747 / 8388608 - 13421773 / 134217728) / (13421773 / 67108864))
      = 16777215 / 4194304 := by
  have h1 : binary32 (7549747 / 8388608 - 13421773 / 134217728) = 3355443 / 4194304 := by
    rw [binary32_eq_of_near (-1) 13421772 (by norm_num) (by norm_num) (by norm_num)
      (by norm_num) (by norm_num)]
    norm_num
  rw [h1, binary32_eq_of_near 1 16777215 (by norm_num) (by norm_num) (by norm_num)
    (by norm_num) (by norm_num)]
  norm_num

/-- The float `0.9f / 0.2f` is `4.5f`. -/
theorem binary32_centre :
    binary32 ((7549747 / 8388608 : ℚ) / (13421773 / 67108864)) = 9 / 2 := by
  rw [binary32_eq_of_near 2 9437184 (by norm_num) (by norm_num) (by norm_num)
    (by norm_num) (by norm_num)]
  norm_num

/-! ## The claims -/

section Claims

variable {α : Type} [LinearOrderedField α] [FloorRing α]

/-- C1: `ProcessKeyboard` applies the axis-separated resolution policy to the
candidate position `c` computed from the old position `p`: when
`CheckCollision c` reports both axes the new position is `p`; when only
`collisionX`, it is `(p.x, c.y, c.z)`; when only `collisionZ`, it is
`(c.x, c.y, p.z)`; when neither, it is `c`.  For every camera state,
direction, deltaTime, grid and tile size. -/
theorem processKeyboard_resolution_policy (M : MathLib α) (cam : Camera α)
    (direction : Camera_Movement) (deltaTime : α) (maze : Maze)
    (mazeWidth mazeHeight : Int) (tileSize : α) :
    let p := cam.Position
    let c := moveCandidate M cam direction deltaTime
    let info := CheckCollision cam c maze mazeWidth mazeHeight tileSize
    let q := (ProcessKeyboard M cam direction deltaTime maze mazeWidth mazeHeight tileSize).Position
    (info.collisionX = true ∧ info.collisionZ = true → q = p) ∧
    (info.collisionX = true ∧ info.collisionZ = false → q = ⟨p.x, c.y, c.z⟩) ∧
    (info.collisionX = false ∧ info.collisionZ = true → q = ⟨c.x, c.y, p.z⟩) ∧
    (info.collisionX = false ∧ info.collisionZ = false → q = c) := by
  intro p c info q
  have hq : q = (if info.collisionX && info.collisionZ then cam
      else if info.collisionX then { cam with Position := ⟨p.x, c.y, c.z⟩ }
      else if info.collisionZ then { cam with Position := ⟨c.x, c.y, p.z⟩ }
      else { cam with Position := c }).Position := by
    simp only [q, info, c, p, ProcessKeyboard, newPositionOf_eq_moveCandidate]
  refine ⟨?_, ?_, ?_, ?_⟩ <;> rintro ⟨hx, hz⟩ <;> rw [hq] <;> simp [hx, hz, p]

/-- The else branch of the bounds check (line 172): when one of the four
indices as the code computes them (by truncation) is outside
`[0, mazeWidth)` (for `x`, `xMinus`) or `[0, mazeHeight)` (for `z`,
`zMinus`), `CheckCollision` returns `collisionX = true` and
`collisionZ = true`, and `ProcessKeyboard` leaves the position unchanged. -/
theorem processKeyboard_out_of_range_rejected (M : MathLib α) (cam : Camera α)
    (direction : Camera_Movement) (deltaTime : α) (maze : Maze)
    (mazeWidth mazeHeight : Int) (tileSize : α)
    (h : ¬ (0 ≤ indexX cam (moveCandidate M cam direction deltaTime) tileSize ∧
            indexX cam (moveCandidate M cam direction deltaTime) tileSize < mazeWidth) ∨
         ¬ (0 ≤ indexXMinus cam (moveCandidate M cam direction deltaTime) tileSize ∧
            indexXMinus cam (moveCandidate M cam direction deltaTime) tileSize < mazeWidth) ∨
         ¬ (0 ≤ indexZ cam (moveCandidate M cam direction deltaTime) tileSize ∧
            indexZ cam (moveCandidate M cam direction deltaTime) tileSize < mazeHeight) ∨
         ¬ (0 ≤ indexZMinus cam (moveCandidate M cam direction deltaTime) tileSize ∧
            indexZMinus cam (moveCandidate M cam direction deltaTime) tileSize < mazeHeight)) :
    CheckCollision cam (moveCandidate M cam direction deltaTime) maze mazeWidth mazeHeight tileSize
        = { collisionX := true, collisionZ := true } ∧
      (ProcessKeyboard M cam direction deltaTime maze mazeWidth mazeHeight tileSize).Position
        = cam.Position := by
  have hout : ¬ IndicesInRange cam (moveCandidate M cam direction deltaTime)
      mazeWidth mazeHeight tileSize := by
    unfold IndicesInRange
    tauto
  have hc := checkCollision_of_not_inRange cam (moveCandidate M cam direction deltaTime)
    maze mazeWidth mazeHeight tileSize hout
  refine ⟨hc, ?_⟩
  simp [ProcessKeyboard, newPositionOf_eq_moveCandidate, hc]

/-- The else branch at a concrete input: from `(0.2, 0, 0.5)` a LEFT move of
one second has the candidate `x = -2.3`, whose truncated index `x` is -2; the
probe reports both axes and the position stays. -/
theorem processKeyboard_out_of_range_rejected_witness :
    indexX nearEdge (moveCandidate ratMath nearEdge Camera_Movement.LEFT 1) 1 = -2 ∧
    CheckCollision nearEdge (moveCandidate ratMath nearEdge Camera_Movement.LEFT 1)
        openMaze 10 10 1 = { collisionX := true, collisionZ := true } ∧
    (ProcessKeyboard ratMath nearEdge Camera_Movement.LEFT 1 openMaze 10 10 1).Position
        = nearEdge.Position := by
  have hx : indexX nearEdge (moveCandidate ratMath nearEdge Camera_Movement.LEFT 1) 1 = -2 := by
    simp only [indexX, moveCandidate, nearEdge, Vec3.sub, Vec3.scale, SPEED]
    exact toInt_of_neg (by norm_num) (by norm_num) (by norm_num)
  exact ⟨hx, processKeyboard_out_of_range_rejected ratMath nearEdge Camera_Movement.LEFT 1
    openMaze 10 10 1 (Or.inl (by rw [hx]; decide))⟩

/-- C2 (the code at the failing input): from `(0.2, 0, 0.5)` on the open 10 by
10 grid of unit tiles, margin `0.12`, a LEFT move of a fifth of a second has
the candidate `(-0.3, 0, 0.5)`.  Its margin-offset cell indices
`floor((-0.3 + 0.12) / 1)` and `floor((-0.3 - 0.12) / 1)` are -1, outside
`[0, 10)`; yet `CheckCollision` reports no collision on either axis and
`ProcessKeyboard` commits the move. -/
theorem processKeyboard_commits_out_of_range_candidate :
    moveCandidate ratMath nearEdge Camera_Movement.LEFT (1 / 5) = ⟨-3 / 10, 0, 1 / 2⟩ ∧
    (specIndexX nearEdge ⟨-3 / 10, 0, 1 / 2⟩ 1 = -1 ∧
      specIndexXMinus nearEdge ⟨-3 / 10, 0, 1 / 2⟩ 1 = -1) ∧
    ¬ (0 ≤ specIndexX nearEdge (moveCandidate ratMath nearEdge Camera_Movement.LEFT (1 / 5)) 1 ∧
        specIndexX nearEdge (moveCandidate ratMath nearEdge Camera_Movement.LEFT (1 / 5)) 1
          < 10) ∧
    CheckCollision nearEdge (moveCandidate ratMath nearEdge Camera_Movement.LEFT (1 / 5))
        openMaze 10 10 1 = { collisionX := false, collisionZ := false } ∧
    (ProcessKeyboard ratMath nearEdge Camera_Movement.LEFT (1 / 5) openMaze 10 10 1).Position
      ≠ nearEdge.Position := by
  have hc : moveCandidate ratMath nearEdge Camera_Movement.LEFT (1 / 5)
      = ⟨-3 / 10, 0, 1 / 2⟩ := by
    rw [← newPositionOf_eq_moveCandidate]
    exact nearEdge_left_candidate
  have f1 : specIndexX nearEdge ⟨-3 / 10, 0, 1 / 2⟩ 1 = -1 :=
    Int.floor_eq_iff.mpr ⟨by norm_num [nearEdge], by norm_num [nearEdge]⟩
  have f2 : specIndexXMinus nearEdge ⟨-3 / 10, 0, 1 / 2⟩ 1 = -1 :=
    Int.floor_eq_iff.mpr ⟨by norm_num [nearEdge], by norm_num [nearEdge]⟩
  have hpos : (ProcessKeyboard ratMath nearEdge Camera_Movement.LEFT (1 / 5)
      openMaze 10 10 1).Position = ⟨-3 / 10, 0, 1 / 2⟩ := by
    simp only [ProcessKeyboard, nearEdge_left_candidate, nearEdge_left_probe]
    simp
  refine ⟨hc, ⟨f1, f2⟩, ?_, ?_, ?_⟩
  · rw [hc, f1]
    decide
  · rw [hc]
    exact nearEdge_left_probe
  · rw [hpos]
    simp [nearEdge]
    norm_num

/-- C3 (the code at the failing input): the camera stands at `(1.9, 0, 1.9)`
in the open cell row 1, column 1 of `cornerMaze` and moves FORWARD along
`(0.6, 0, 0.8)` for a tenth of a second.  The candidate `(2.05, 0, 2.1)` is
blocked on X only, so the code commits the old x with the new z, and the
camera ends at `(1.9, 0, 2.1)`: inside the blocked cell row 2, column 1. -/
theorem processKeyboard_slides_into_blocked_cell :
    cellValue cornerMaze (1 : ℚ) nearCorner.Position = 0 ∧
    (ProcessKeyboard ratMath nearCorner Camera_Movement.FORWARD (1 / 10)
        cornerMaze 10 10 1).Position = ⟨19 / 10, 0, 21 / 10⟩ ∧
    cellValue cornerMaze (1 : ℚ) (ProcessKeyboard ratMath nearCorner Camera_Movement.FORWARD
        (1 / 10) cornerMaze 10 10 1).Position = 1 := by
  have hpos : (ProcessKeyboard ratMath nearCorner Camera_Movement.FORWARD (1 / 10)
      cornerMaze 10 10 1).Position = ⟨19 / 10, 0, 21 / 10⟩ := by
    simp only [ProcessKeyboard, nearCorner_forward_candidate, nearCorner_forward_probe]
    simp [nearCorner]
  have f1 : ⌊(19 / 10 : ℚ) / 1⌋ = 1 := Int.floor_eq_iff.mpr ⟨by norm_num, by norm_num⟩
  have f2 : ⌊(21 / 10 : ℚ) / 1⌋ = 2 := Int.floor_eq_iff.mpr ⟨by norm_num, by norm_num⟩
  refine ⟨?_, hpos, ?_⟩
  · simp only [cellValue, nearCorner, f1, cornerMaze]
    simp
  · rw [hpos]
    simp only [cellValue, f1, f2, cornerMaze]
    simp

/-- C4 (the code at the failing input): the camera stands at `(0.2, 0, 0.5)`
inside the 10 by 10 grid of unit tiles, margin `0.12`, and moves LEFT for a
fifth of a second.  The candidate x is `-0.3`; both `(-0.3 + 0.12) / 1` and
`(-0.3 - 0.12) / 1` convert to the index 0, the bounds check passes, no cell
is blocked, and the position becomes `(-0.3, 0, 0.5)`, left of the grid. -/
theorem processKeyboard_leaves_grid_region :
    (0 ≤ nearEdge.Position.x ∧ nearEdge.Position.x < 10 * 1 ∧
      0 ≤ nearEdge.Position.z ∧ nearEdge.Position.z < 10 * 1) ∧
    0 ≤ nearEdge.collisionMargin ∧
    (ProcessKeyboard ratMath nearEdge Camera_Movement.LEFT (1 / 5)
        openMaze 10 10 1).Position = ⟨-3 / 10, 0, 1 / 2⟩ ∧
    (ProcessKeyboard ratMath nearEdge Camera_Movement.LEFT (1 / 5)
        openMaze 10 10 1).Position.x < 0 := by
  have hpos : (ProcessKeyboard ratMath nearEdge Camera_Movement.LEFT (1 / 5)
      openMaze 10 10 1).Position = ⟨-3 / 10, 0, 1 / 2⟩ := by
    simp only [ProcessKeyboard, nearEdge_left_candidate, nearEdge_left_probe]
    simp
  refine ⟨?_, ?_, hpos, ?_⟩
  · simp only [nearEdge]; norm_num
  · simp only [nearEdge]; norm_num
  · rw [hpos]; norm_num

/-- C5: after `ProcessMouseScroll(yoffset)`, from any prior zoom and for any
yoffset, the zoom lies in `[1, 45]` and equals
`clamp(oldZoom - yoffset, 1, 45)`; zoom 45 with yoffset 100 gives 1, and zoom
1 with yoffset -100 gives 45.  The constructor sets zoom to 45, so the zoom
is in `[1, 45]` after the constructor and any sequence of calls. -/
theorem processMouseScroll_zoom_clamped (M : MathLib α) (cam : Camera α) (yoffset : α) :
    (1 ≤ (ProcessMouseScroll cam yoffset).Zoom ∧ (ProcessMouseScroll cam yoffset).Zoom ≤ 45 ∧
      (ProcessMouseScroll cam yoffset).Zoom = clamp (cam.Zoom - yoffset) 1 45) ∧
    (ProcessMouseScroll { cam with Zoom := 45 } 100).Zoom = 1 ∧
    (ProcessMouseScroll { cam with Zoom := 1 } (-100)).Zoom = 45 ∧
    (∀ (position up : Vec3 α) (yaw pitch margin : α) (ops : List (Op α)),
      1 ≤ (run M (mkCamera M position up yaw pitch margin) ops).Zoom ∧
      (run M (mkCamera M position up yaw pitch margin) ops).Zoom ≤ 45) := by
  refine ⟨⟨?_, ?_, processMouseScroll_zoom_eq cam yoffset⟩, ?_, ?_, ?_⟩
  · rw [processMouseScroll_zoom_eq]; exact (clamp_mem _).1
  · rw [processMouseScroll_zoom_eq]; exact (clamp_mem _).2
  · rw [processMouseScroll_zoom_eq]; simp only [clamp]; norm_num
  · rw [processMouseScroll_zoom_eq]; simp only [clamp]; norm_num
  · intro position up yaw pitch margin ops
    apply run_zoom_mem
    rw [mkCamera_zoom]
    constructor <;> norm_num

/-- C6, as stated, fails: the default camera that has looked down to the clamp
(pitch -89) and then receives one `ProcessMouseMovement(0, 1000, true)` call,
sensitivity 0.1, has pitch `-89 + 100 = 11`, not 89. -/
theorem lookUp_once_from_lookingDown_not_89 :
    lookingDown.MouseSensitivity = 1 / 10 ∧ lookingDown.Pitch = -89 ∧
    (lookUpRepeatedly realMath lookingDown [0]).Pitch = 11 ∧
    (lookUpRepeatedly realMath lookingDown [0]).Pitch ≠ 89 := by
  have hs : lookingDown.MouseSensitivity = 1 / 10 := rfl
  have hp : lookingDown.Pitch = -89 := by
    simp only [lookingDown, processMouseMovement_pitch]
    have h0 : defaultCamera.Pitch = 0 := rfl
    have h1 : defaultCamera.MouseSensitivity = 1 / 10 := rfl
    rw [h0, h1]
    norm_num
  have h11 : (lookUpRepeatedly realMath lookingDown [0]).Pitch = 11 := by
    have hstep : lookUpRepeatedly realMath lookingDown [0]
        = ProcessMouseMovement realMath lookingDown 0 1000 true := rfl
    rw [hstep, processMouseMovement_pitch, hs, hp]
    norm_num
  refine ⟨hs, hp, h11, ?_⟩
  rw [h11]
  norm_num

/-- C6 (amended): after any `ProcessMouseMovement(xoffset, yoffset, true)`
call, from any prior pitch and for any offsets and sensitivity, the pitch
lies in `[-89, 89]`.  With sensitivity 0.1, a sequence of such calls with
`yoffset = 1000` never leaves the pitch above 89 (when it has a call, or the
prior pitch was not above 89), and leaves it exactly 89 when it has three or
more calls, or one or more calls from a prior pitch of at least -11. -/
theorem constrained_pitch_clamped (M : MathLib α) (cam : Camera α) (xoffset yoffset : α)
    (xoffsets : List α) :
    (-89 ≤ (ProcessMouseMovement M cam xoffset yoffset true).Pitch ∧
      (ProcessMouseMovement M cam xoffset yoffset true).Pitch ≤ 89) ∧
    (xoffsets ≠ [] → (lookUpRepeatedly M cam xoffsets).Pitch ≤ 89) ∧
    (cam.Pitch ≤ 89 → (lookUpRepeatedly M cam xoffsets).Pitch ≤ 89) ∧
    (cam.MouseSensitivity = 1 / 10 → 3 ≤ xoffsets.length →
      (lookUpRepeatedly M cam xoffsets).Pitch = 89) ∧
    (cam.MouseSensitivity = 1 / 10 → 1 ≤ xoffsets.length → -11 ≤ cam.Pitch →
      (lookUpRepeatedly M cam xoffsets).Pitch = 89) := by
  refine ⟨constrained_pitch_mem M cam xoffset yoffset, ?_, ?_, ?_, ?_⟩
  · intro hne
    cases xoffsets with
    | nil => exact absurd rfl hne
    | cons a rest =>
      rw [lookUpRepeatedly_cons]
      exact lookUpRepeatedly_pitch_le M rest _ (constrained_pitch_mem M cam a 1000).2
  · exact lookUpRepeatedly_pitch_le M xoffsets cam
  · intro hs hlen
    match xoffsets, hlen with
    | a :: b :: c :: rest, _ =>
      rw [lookUpRepeatedly_cons, lookUpRepeatedly_cons]
      have s1 : (ProcessMouseMovement M cam a 1000 true).MouseSensitivity = 1 / 10 := hs
      have s2 : (ProcessMouseMovement M (ProcessMouseMovement M cam a 1000 true) b 1000
          true).MouseSensitivity = 1 / 10 := hs
      have p1 := (constrained_pitch_mem M cam a 1000).1
      have p2 := lookUp_pitch_ge_eleven M _ b s1 p1
      exact lookUpRepeatedly_pitch_of_ge M (c :: rest) _ s2 (by linarith) (by simp)
  · intro hs hlen hp
    apply lookUpRepeatedly_pitch_of_ge M xoffsets cam hs hp
    intro h
    rw [h] at hlen
    simp at hlen

/-- Witness for C6: the camera that looks down to the clamp, one call with
offsets `(5, 7)`, and three look-up calls. -/
theorem constrained_pitch_clamped_witness :
    lookingDown.MouseSensitivity = 1 / 10 ∧
    (-89 ≤ (ProcessMouseMovement realMath lookingDown 5 7 true).Pitch ∧
      (ProcessMouseMovement realMath lookingDown 5 7 true).Pitch ≤ 89) ∧
    (lookUpRepeatedly realMath lookingDown [0, 0, 0]).Pitch = 89 :=
  ⟨rfl, (constrained_pitch_clamped realMath lookingDown 5 7 [0, 0, 0]).1,
    (constrained_pitch_clamped realMath lookingDown 5 7 [0, 0, 0]).2.2.2.1 rfl (by simp)⟩

/-- C7, as stated, fails: `ProcessMouseMovement(0, 1000, false)` on the default
camera (pitch 0, sensitivity 0.1) stores the pitch 100. -/
theorem unconstrained_pitch_exceeds_89 :
    (ProcessMouseMovement realMath defaultCamera 0 1000 false).Pitch = 100 ∧
    ¬ (-89 ≤ (ProcessMouseMovement realMath defaultCamera 0 1000 false).Pitch ∧
        (ProcessMouseMovement realMath defaultCamera 0 1000 false).Pitch ≤ 89) := by
  have h100 : (ProcessMouseMovement realMath defaultCamera 0 1000 false).Pitch = 100 := by
    have h0 : defaultCamera.Pitch = 0 := rfl
    have h1 : defaultCamera.MouseSensitivity = 1 / 10 := rfl
    rw [processMouseMovement_pitch, h0, h1]
    norm_num
  refine ⟨h100, ?_⟩
  rw [h100]
  norm_num

/-- C7 (amended): for every camera state and every `ProcessMouseMovement` call,
the resulting pitch lies in `[-89, 89]` exactly when `constrainPitch` is set
or `oldPitch + yoffset * mouseSensitivity` already lies in `[-89, 89]`; in
particular it always does when `constrainPitch` is set. -/
theorem mouse_pitch_mem_iff (M : MathLib α) (cam : Camera α) (xoffset yoffset : α)
    (constrainPitch : Bool) :
    (-89 ≤ (ProcessMouseMovement M cam xoffset yoffset constrainPitch).Pitch ∧
      (ProcessMouseMovement M cam xoffset yoffset constrainPitch).Pitch ≤ 89) ↔
    (constrainPitch = true ∨
      (-89 ≤ cam.Pitch + yoffset * cam.MouseSensitivity ∧
        cam.Pitch + yoffset * cam.MouseSensitivity ≤ 89)) := by
  cases constrainPitch with
  | true => simpa using constrained_pitch_mem M cam xoffset yoffset
  | false => simp [processMouseMovement_pitch]

/-- C8: `ProcessKeyboard` with `deltaTime = 0` never changes the position, for
every camera state, direction, grid, width, height and tile size, whichever
collision branch is taken. -/
theorem processKeyboard_zero_deltaTime (M : MathLib α) (cam : Camera α)
    (direction : Camera_Movement) (maze : Maze) (mazeWidth mazeHeight : Int) (tileSize : α) :
    (ProcessKeyboard M cam direction 0 maze mazeWidth mazeHeight tileSize).Position
      = cam.Position := by
  simp only [ProcessKeyboard, newPositionOf_eq_moveCandidate, moveCandidate_zero]
  split_ifs <;> rfl

/-- C9: for direction FORWARD or BACKWARD, `ProcessKeyboard` leaves
`position.y` unchanged, for every front vector (so every yaw and pitch),
deltaTime, grid and collision outcome. -/
theorem processKeyboard_forward_backward_keeps_y (M : MathLib α) (cam : Camera α)
    (direction : Camera_Movement) (deltaTime : α) (maze : Maze)
    (mazeWidth mazeHeight : Int) (tileSize : α)
    (hdir : direction = Camera_Movement.FORWARD ∨ direction = Camera_Movement.BACKWARD) :
    (ProcessKeyboard M cam direction deltaTime maze mazeWidth mazeHeight tileSize).Position.y
      = cam.Position.y := by
  have hy := moveCandidate_y_of_forward_backward M cam direction deltaTime hdir
  simp only [ProcessKeyboard, newPositionOf_eq_moveCandidate]
  split_ifs <;> first | rfl | exact hy

/-- Witness for C9: a FORWARD move of the camera constructed with pitch 89. -/
theorem processKeyboard_forward_backward_keeps_y_witness :
    steepCamera.Pitch = 89 ∧
    (ProcessKeyboard realMath steepCamera Camera_Movement.FORWARD (1 / 10)
        openMaze 10 10 1).Position.y = steepCamera.Position.y :=
  ⟨rfl, processKeyboard_forward_backward_keeps_y realMath steepCamera Camera_Movement.FORWARD
    (1 / 10) openMaze 10 10 1 (Or.inl rfl)⟩

/-- C10: over exact real arithmetic with `worldUp = (0, 1, 0)`, for every yaw
and every pitch the vectors front, right and up that `updateCameraVectors`
produces are mutually orthonormal: each has length 1 and each pairwise dot
product is 0.  Yaw and pitch range over the values the `float` fields can
hold (rational numbers) and the degrees-to-radians constant is any machine
number `k`, as the literal of `glm::radians` and its conversion to `float`
are: the angle `pitch * k` is then rational, and the cosine of a rational
number is never zero, so `cross(front, worldUp)` is never the zero vector. -/
theorem updateCameraVectors_orthonormal_machine (k : ℚ) (cam : Camera ℝ) (yaw pitch : ℚ)
    (hup : cam.WorldUp = ⟨0, 1, 0⟩) :
    Orthonormal (machineMath k)
      (updateCameraVectors (machineMath k)
        { cam with Yaw := (yaw : ℝ), Pitch := (pitch : ℝ) }).Front
      (updateCameraVectors (machineMath k)
        { cam with Yaw := (yaw : ℝ), Pitch := (pitch : ℝ) }).Right
      (updateCameraVectors (machineMath k)
        { cam with Yaw := (yaw : ℝ), Pitch := (pitch : ℝ) }).Up :=
  updateCameraVectors_orthonormal_of_rat_pitch k
    { cam with Yaw := (yaw : ℝ), Pitch := (pitch : ℝ) } pitch hup rfl

/-- Witness for C10: yaw 0 and pitch 90, with the literal of `glm::radians`. -/
theorem updateCameraVectors_orthonormal_machine_witness :
    straightUp.WorldUp = ⟨0, 1, 0⟩ ∧
    Orthonormal (machineMath glmRadiansConstant)
      (updateCameraVectors (machineMath glmRadiansConstant)
        { straightUp with Yaw := ((0 : ℚ) : ℝ), Pitch := ((90 : ℚ) : ℝ) }).Front
      (updateCameraVectors (machineMath glmRadiansConstant)
        { straightUp with Yaw := ((0 : ℚ) : ℝ), Pitch := ((90 : ℚ) : ℝ) }).Right
      (updateCameraVectors (machineMath glmRadiansConstant)
        { straightUp with Yaw := ((0 : ℚ) : ℝ), Pitch := ((90 : ℚ) : ℝ) }).Up :=
  ⟨rfl, updateCameraVectors_orthonormal_machine glmRadiansConstant straightUp 0 90 rfl⟩

/-- C11, as stated, fails on the diagonal move: in `aheadMaze` (only cell row 1,
column 1 blocked) the camera at `(1.85, 0, 2.2)` stands in the open cell row
2, column 1 with its footprint inside it and moves FORWARD along
`(0.8, 0, -0.6)` for a tenth of a second.  The candidate `(2.05, 0, 2.05)`
has its centre in row 2 and its `z - margin` edge in row 1, all indices are
in range, its x differs from the old x and `x ± margin` lie in the open
cells columns 2 and 1 of row 2; yet its centre column is 2, the probe reads
`maze[1][2]` and not the blocked `maze[1][1]`, no axis is blocked and the
whole candidate is committed: the old z is not kept. -/
theorem diagonal_past_blocked_cell_moves_z :
    BlockedAhead passingBlock aheadMaze 1 2 1 ∧
    centreRow (moveCandidate ratMath passingBlock Camera_Movement.FORWARD (1 / 10)) 1 = 2 ∧
    indexZMinus passingBlock
      (moveCandidate ratMath passingBlock Camera_Movement.FORWARD (1 / 10)) 1 = 2 - 1 ∧
    IndicesInRange passingBlock
      (moveCandidate ratMath passingBlock Camera_Movement.FORWARD (1 / 10)) 10 10 1 ∧
    (moveCandidate ratMath passingBlock Camera_Movement.FORWARD (1 / 10)).x
      ≠ passingBlock.Position.x ∧
    aheadMaze 2 (indexX passingBlock
      (moveCandidate ratMath passingBlock Camera_Movement.FORWARD (1 / 10)) 1) = 0 ∧
    aheadMaze 2 (indexXMinus passingBlock
      (moveCandidate ratMath passingBlock Camera_Movement.FORWARD (1 / 10)) 1) = 0 ∧
    (ProcessKeyboard ratMath passingBlock Camera_Movement.FORWARD (1 / 10)
      aheadMaze 10 10 1).Position = ⟨41 / 20, 0, 41 / 20⟩ ∧
    (ProcessKeyboard ratMath passingBlock Camera_Movement.FORWARD (1 / 10)
      aheadMaze 10 10 1).Position.z ≠ passingBlock.Position.z := by
  obtain ⟨e1, e2, e3, e4, e5, e6⟩ := passingBlock_indices
  have hin : IndicesInRange passingBlock ⟨41 / 20, 0, 41 / 20⟩ 10 10 1 := by
    simp only [IndicesInRange, e3, e4, e5, e6]
    decide
  have hprobe : CheckCollision passingBlock ⟨41 / 20, 0, 41 / 20⟩ aheadMaze 10 10 1
      = { collisionX := false, collisionZ := false } := by
    rw [checkCollision_of_inRange passingBlock _ aheadMaze 10 10 1 hin, e1, e2, e3, e4, e5, e6]
    simp [aheadMaze]
  have hpos : (ProcessKeyboard ratMath passingBlock Camera_Movement.FORWARD (1 / 10)
      aheadMaze 10 10 1).Position = ⟨41 / 20, 0, 41 / 20⟩ := by
    simp only [ProcessKeyboard, newPositionOf_eq_moveCandidate, passingBlock_candidate, hprobe]
    simp
  rw [passingBlock_candidate, hpos]
  refine ⟨aheadMaze_scene passingBlock rfl rfl (by norm_num [passingBlock])
      (by norm_num [passingBlock]), e1, e6, hin, by norm_num [passingBlock], ?_, ?_, rfl,
      by norm_num [passingBlock]⟩
  · rw [e3]; simp [aheadMaze]
  · rw [e4]; simp [aheadMaze]

/-- C11 (amended): in the scene `BlockedAhead` (camera in the open cell
`(r, c)` with its footprint inside it, cell `(r - 1, c)` blocked, the cells
beside open, `0 < tileSize`, `0 ≤ 2 * margin ≤ tileSize`), for every
candidate whose centre stays in row `r`, whose `z - margin` edge enters row
`r - 1` and whose margin-offset indices are in range: a move straight along
Z (candidate x and y equal to the old ones; y always is for FORWARD and
BACKWARD) leaves the position unchanged, and a diagonal move (candidate x
different, `x ± margin` in open cells of row `r`) whose centre stays in
column `c` keeps the old z and commits the candidate x and y. -/
theorem blocked_ahead_resolution (M : MathLib α) (cam : Camera α)
    (direction : Camera_Movement) (deltaTime : α) (maze : Maze)
    (mazeWidth mazeHeight : Int) (tileSize : α) (r c : Int)
    (hscene : BlockedAhead cam maze tileSize r c)
    (hrow : centreRow (moveCandidate M cam direction deltaTime) tileSize = r)
    (hzm : indexZMinus cam (moveCandidate M cam direction deltaTime) tileSize = r - 1)
    (hin : IndicesInRange cam (moveCandidate M cam direction deltaTime) mazeWidth mazeHeight
      tileSize) :
    ((moveCandidate M cam direction deltaTime).x = cam.Position.x →
      (moveCandidate M cam direction deltaTime).y = cam.Position.y →
      (ProcessKeyboard M cam direction deltaTime maze mazeWidth mazeHeight tileSize).Position
        = cam.Position) ∧
    ((moveCandidate M cam direction deltaTime).x = cam.Position.x →
      direction = Camera_Movement.FORWARD ∨ direction = Camera_Movement.BACKWARD →
      (ProcessKeyboard M cam direction deltaTime maze mazeWidth mazeHeight tileSize).Position
        = cam.Position) ∧
    ((moveCandidate M cam direction deltaTime).x ≠ cam.Position.x →
      maze r (indexX cam (moveCandidate M cam direction deltaTime) tileSize) = 0 →
      maze r (indexXMinus cam (moveCandidate M cam direction deltaTime) tileSize) = 0 →
      centreCol (moveCandidate M cam direction deltaTime) tileSize = c →
      (ProcessKeyboard M cam direction deltaTime maze mazeWidth mazeHeight tileSize).Position
        = ⟨(moveCandidate M cam direction deltaTime).x,
            (moveCandidate M cam direction deltaTime).y, cam.Position.z⟩) := by
  obtain ⟨_, ⟨_, hpc, hpx, hpxm, _, _⟩, hopen, hblocked, _, _⟩ := hscene
  have straight : (moveCandidate M cam direction deltaTime).x = cam.Position.x →
      (moveCandidate M cam direction deltaTime).y = cam.Position.y →
      (ProcessKeyboard M cam direction deltaTime maze mazeWidth mazeHeight tileSize).Position
        = cam.Position := by
    intro ex ey
    have hcx : indexX cam (moveCandidate M cam direction deltaTime) tileSize = c := by
      rw [← hpx]; simp only [indexX, ex]
    have hcxm : indexXMinus cam (moveCandidate M cam direction deltaTime) tileSize = c := by
      rw [← hpxm]; simp only [indexXMinus, ex]
    have hcc : centreCol (moveCandidate M cam direction deltaTime) tileSize = c := by
      rw [← hpc]; simp only [centreCol, ex]
    have hprobe := blocked_ahead_probe cam (moveCandidate M cam direction deltaTime) maze
      mazeWidth mazeHeight tileSize r c hblocked hrow hcc hzm (by rw [hcx]; exact hopen)
      (by rw [hcxm]; exact hopen) hin
    rw [processKeyboard_of_z_only M cam direction deltaTime maze mazeWidth mazeHeight tileSize
      hprobe, ex, ey]
  refine ⟨straight, ?_, ?_⟩
  · intro ex hdir
    exact straight ex (moveCandidate_y_of_forward_backward M cam direction deltaTime hdir)
  · intro _ hx hxm hcc
    exact processKeyboard_of_z_only M cam direction deltaTime maze mazeWidth mazeHeight tileSize
      (blocked_ahead_probe cam (moveCandidate M cam direction deltaTime) maze
        mazeWidth mazeHeight tileSize r c hblocked hrow hcc hzm hx hxm hin)

/-- Witness for C11: the camera `facingBlock` moves FORWARD (straight along Z)
for 0.06 s toward the blocked cell of `aheadMaze`; the position stays. -/
theorem blocked_ahead_resolution_witness :
    BlockedAhead facingBlock aheadMaze 1 2 1 ∧
    (moveCandidate ratMath facingBlock Camera_Movement.FORWARD (3 / 50)).x
      = facingBlock.Position.x ∧
    (ProcessKeyboard ratMath facingBlock Camera_Movement.FORWARD (3 / 50)
      aheadMaze 10 10 1).Position = facingBlock.Position := by
  have hs : BlockedAhead facingBlock aheadMaze 1 2 1 :=
    aheadMaze_scene facingBlock rfl rfl (by norm_num [facingBlock]) (by norm_num [facingBlock])
  have hx : (moveCandidate ratMath facingBlock Camera_Movement.FORWARD (3 / 50)).x
      = facingBlock.Position.x := by
    rw [facingBlock_candidate]; rfl
  obtain ⟨e1, e2, e3⟩ := facingBlock_indices
  exact ⟨hs, hx, (blocked_ahead_resolution ratMath facingBlock Camera_Movement.FORWARD (3 / 50)
    aheadMaze 10 10 1 2 1 hs (by rw [facingBlock_candidate]; exact e1)
    (by rw [facingBlock_candidate]; exact e2)
    (by rw [facingBlock_candidate]; exact e3)).2.1 hx (Or.inl rfl)⟩

/-- C12: each operation changes only its own fields.  `ProcessKeyboard`
changes nothing but the position; `ProcessMouseScroll` changes nothing but
the zoom; `ProcessMouseMovement` changes nothing but yaw, pitch, front,
right and up.  The world up is the same after any sequence of operations,
and the two mouse operations leave the position alone. -/
theorem operations_frame (M : MathLib α) (cam : Camera α)
    (direction : Camera_Movement) (deltaTime : α) (maze : Maze)
    (mazeWidth mazeHeight : Int) (tileSize : α) (xoffset yoffset : α) (constrainPitch : Bool)
    (scroll : α) :
    (ProcessKeyboard M cam direction deltaTime maze mazeWidth mazeHeight tileSize =
      { cam with Position :=
          (ProcessKeyboard M cam direction deltaTime maze mazeWidth mazeHeight tileSize).Position }) ∧
    (ProcessMouseScroll cam scroll = { cam with Zoom := (ProcessMouseScroll cam scroll).Zoom }) ∧
    (ProcessMouseMovement M cam xoffset yoffset constrainPitch =
      { cam with
        Yaw := (ProcessMouseMovement M cam xoffset yoffset constrainPitch).Yaw
        Pitch := (ProcessMouseMovement M cam xoffset yoffset constrainPitch).Pitch
        Front := (ProcessMouseMovement M cam xoffset yoffset constrainPitch).Front
        Right := (ProcessMouseMovement M cam xoffset yoffset constrainPitch).Right
        Up := (ProcessMouseMovement M cam xoffset yoffset constrainPitch).Up }) ∧
    (∀ ops : List (Op α), (run M cam ops).WorldUp = cam.WorldUp) ∧
    (ProcessMouseMovement M cam xoffset yoffset constrainPitch).Position = cam.Position ∧
    (ProcessMouseScroll cam scroll).Position = cam.Position := by
  refine ⟨?_, rfl, rfl, fun ops => run_worldUp M ops cam, rfl, rfl⟩
  simp only [ProcessKeyboard]
  split_ifs <;> rfl

/-- C13 (the code at the failing input): for the position `(-0.3, 0, -0.3)`,
margin `0.12` and unit tiles, the four indices the code computes are all 0,
while `floor((-0.3 + 0.12) / 1)` and `floor((-0.3 - 0.12) / 1)` are -1. -/
theorem index_truncates_negative_position :
    (indexX nearEdge ⟨-3 / 10, 0, -3 / 10⟩ 1 = 0 ∧
      specIndexX nearEdge ⟨-3 / 10, 0, -3 / 10⟩ 1 = -1) ∧
    (indexXMinus nearEdge ⟨-3 / 10, 0, -3 / 10⟩ 1 = 0 ∧
      specIndexXMinus nearEdge ⟨-3 / 10, 0, -3 / 10⟩ 1 = -1) ∧
    (indexZ nearEdge ⟨-3 / 10, 0, -3 / 10⟩ 1 = 0 ∧
      specIndexZ nearEdge ⟨-3 / 10, 0, -3 / 10⟩ 1 = -1) ∧
    (indexZMinus nearEdge ⟨-3 / 10, 0, -3 / 10⟩ 1 = 0 ∧
      specIndexZMinus nearEdge ⟨-3 / 10, 0, -3 / 10⟩ 1 = -1) := by
  refine ⟨⟨?_, ?_⟩, ⟨?_, ?_⟩, ⟨?_, ?_⟩, ⟨?_, ?_⟩⟩
  · exact toInt_of_neg (by norm_num [nearEdge]) (by norm_num [nearEdge])
      (by norm_num [nearEdge])
  · exact Int.floor_eq_iff.mpr ⟨by norm_num [nearEdge], by norm_num [nearEdge]⟩
  · exact toInt_of_neg (by norm_num [nearEdge]) (by norm_num [nearEdge])
      (by norm_num [nearEdge])
  · exact Int.floor_eq_iff.mpr ⟨by norm_num [nearEdge], by norm_num [nearEdge]⟩
  · exact toInt_of_neg (by norm_num [nearEdge]) (by norm_num [nearEdge])
      (by norm_num [nearEdge])
  · exact Int.floor_eq_iff.mpr ⟨by norm_num [nearEdge], by norm_num [nearEdge]⟩
  · exact toInt_of_neg (by norm_num [nearEdge]) (by norm_num [nearEdge])
      (by norm_num [nearEdge])
  · exact Int.floor_eq_iff.mpr ⟨by norm_num [nearEdge], by norm_num [nearEdge]⟩

/-- C15: `CheckCollision` never subscripts the grid out of range.  For
`tileSize > 0`, `mazeWidth ≤ 10` and `mazeHeight ≤ 10`, any margin and any
candidate: when the bounds check on `x`, `xMinus`, `z`, `zMinus` passes, the
unoffset indices `row` and `col` lie in `[0, mazeHeight)` and
`[0, mazeWidth)`, and every pair at which the code subscripts `maze` lies in
the 10 by 10 array. -/
theorem checkCollision_lookups_in_array (cam : Camera α) (pos : Vec3 α)
    (mazeWidth mazeHeight : Int) (tileSize : α)
    (hts : 0 < tileSize) (hw : mazeWidth ≤ 10) (hh : mazeHeight ≤ 10) :
    (IndicesInRange cam pos mazeWidth mazeHeight tileSize →
      (0 ≤ centreRow pos tileSize ∧ centreRow pos tileSize < mazeHeight) ∧
      (0 ≤ centreCol pos tileSize ∧ centreCol pos tileSize < mazeWidth)) ∧
    (∀ rc ∈ lookups cam pos mazeWidth mazeHeight tileSize,
      (0 ≤ rc.1 ∧ rc.1 < 10) ∧ (0 ≤ rc.2 ∧ rc.2 < 10)) := by
  refine ⟨centre_inRange cam pos mazeWidth mazeHeight tileSize hts, ?_⟩
  intro rc hrc
  by_cases h : IndicesInRange cam pos mazeWidth mazeHeight tileSize
  · obtain ⟨⟨c1, c2⟩, c3, c4⟩ := centre_inRange cam pos mazeWidth mazeHeight tileSize hts h
    obtain ⟨⟨h1, h2⟩, ⟨h3, h4⟩, ⟨h5, h6⟩, h7, h8⟩ := h
    rw [lookups_of_inRange cam pos mazeWidth mazeHeight tileSize
      ⟨⟨h1, h2⟩, ⟨h3, h4⟩, ⟨h5, h6⟩, h7, h8⟩] at hrc
    simp only [List.mem_cons, List.mem_singleton, List.not_mem_nil, or_false] at hrc
    rcases hrc with e | e | e | e <;> subst e <;> simp only <;>
      exact ⟨⟨by omega, by omega⟩, by omega, by omega⟩
  · rw [lookups_of_not_inRange cam pos mazeWidth mazeHeight tileSize h] at hrc
    exact absurd hrc (List.not_mem_nil rc)

/-- Witness for C15: the probe of the candidate `(2.05, 0, 2.1)` on the 10 by
10 grid of unit tiles subscripts `maze` four times, inside the array. -/
theorem checkCollision_lookups_in_array_witness :
    (lookups nearCorner ⟨41 / 20, 0, 21 / 10⟩ 10 10 1).length = 4 ∧
    ∀ rc ∈ lookups nearCorner ⟨41 / 20, 0, 21 / 10⟩ 10 10 1,
      (0 ≤ rc.1 ∧ rc.1 < 10) ∧ (0 ≤ rc.2 ∧ rc.2 < 10) :=
  ⟨by rw [lookups_of_inRange nearCorner _ 10 10 1 nearCorner_candidate_inRange]; rfl,
    (checkCollision_lookups_in_array nearCorner ⟨41 / 20, 0, 21 / 10⟩ 10 10 1
      (by norm_num) (by norm_num) (by norm_num)).2⟩

/-- C16: `ProcessMouseMovement(xoffset, yoffset, constrainPitch)` sets yaw to
`oldYaw + xoffset * mouseSensitivity`, unclamped, and pitch to
`oldPitch + yoffset * mouseSensitivity`, clamped to `[-89, 89]` when
`constrainPitch` is set and unclamped otherwise; front, right and up
afterwards are the basis derived from the new yaw and pitch (and the world
up). -/
theorem processMouseMovement_spec (M : MathLib α) (cam : Camera α) (xoffset yoffset : α)
    (constrainPitch : Bool) :
    (ProcessMouseMovement M cam xoffset yoffset constrainPitch).Yaw
      = cam.Yaw + xoffset * cam.MouseSensitivity ∧
    (ProcessMouseMovement M cam xoffset yoffset constrainPitch).Pitch
      = (if constrainPitch then clamp (cam.Pitch + yoffset * cam.MouseSensitivity) (-89) 89
         else cam.Pitch + yoffset * cam.MouseSensitivity) ∧
    (ProcessMouseMovement M cam xoffset yoffset constrainPitch).Front
      = derivedFront M (ProcessMouseMovement M cam xoffset yoffset constrainPitch).Yaw
          (ProcessMouseMovement M cam xoffset yoffset constrainPitch).Pitch ∧
    (ProcessMouseMovement M cam xoffset yoffset constrainPitch).Right
      = derivedRight M (ProcessMouseMovement M cam xoffset yoffset constrainPitch).Yaw
          (ProcessMouseMovement M cam xoffset yoffset constrainPitch).Pitch cam.WorldUp ∧
    (ProcessMouseMovement M cam xoffset yoffset constrainPitch).Up
      = derivedUp M (ProcessMouseMovement M cam xoffset yoffset constrainPitch).Yaw
          (ProcessMouseMovement M cam xoffset yoffset constrainPitch).Pitch cam.WorldUp := by
  refine ⟨rfl, ?_, rfl, rfl, rfl⟩
  rw [processMouseMovement_pitch]
  cases constrainPitch with
  | false => simp
  | true =>
    simp only [if_true, clamp]
    split_ifs <;> first | rfl | (exfalso; linarith)

/-- C17: over exact real arithmetic, for every yaw and every pitch with
`-90 < pitch < 90` and a camera whose front was derived from them, an
unobstructed FORWARD move displaces the position by exactly
`movementSpeed * deltaTime * (cos yaw, 0, sin yaw)` and an unobstructed
BACKWARD move by its negation: a vector without pitch in it, of length
`|movementSpeed| * |deltaTime|`, which is `movementSpeed * |deltaTime|` for
the non-negative speed every constructor sets. -/
theorem forward_displacement_pitch_free (cam : Camera ℝ) (deltaTime : ℝ) (maze : Maze)
    (mazeWidth mazeHeight : Int) (tileSize : ℝ)
    (h1 : -90 < cam.Pitch) (h2 : cam.Pitch < 90) :
    (CheckCollision (updateCameraVectors realMath cam)
        (moveCandidate realMath (updateCameraVectors realMath cam) Camera_Movement.FORWARD
          deltaTime) maze mazeWidth mazeHeight tileSize
        = { collisionX := false, collisionZ := false } →
      (ProcessKeyboard realMath (updateCameraVectors realMath cam) Camera_Movement.FORWARD
          deltaTime maze mazeWidth mazeHeight tileSize).Position
        = cam.Position.add ((⟨Real.cos (radians realMath cam.Yaw), 0,
            Real.sin (radians realMath cam.Yaw)⟩ : Vec3 ℝ).scale
              (cam.MovementSpeed * deltaTime))) ∧
    (CheckCollision (updateCameraVectors realMath cam)
        (moveCandidate realMath (updateCameraVectors realMath cam) Camera_Movement.BACKWARD
          deltaTime) maze mazeWidth mazeHeight tileSize
        = { collisionX := false, collisionZ := false } →
      (ProcessKeyboard realMath (updateCameraVectors realMath cam) Camera_Movement.BACKWARD
          deltaTime maze mazeWidth mazeHeight tileSize).Position
        = cam.Position.sub ((⟨Real.cos (radians realMath cam.Yaw), 0,
            Real.sin (radians realMath cam.Yaw)⟩ : Vec3 ℝ).scale
              (cam.MovementSpeed * deltaTime))) ∧
    length realMath ((⟨Real.cos (radians realMath cam.Yaw), 0,
        Real.sin (radians realMath cam.Yaw)⟩ : Vec3 ℝ).scale (cam.MovementSpeed * deltaTime))
      = |cam.MovementSpeed| * |deltaTime| ∧
    (0 ≤ cam.MovementSpeed →
      length realMath ((⟨Real.cos (radians realMath cam.Yaw), 0,
          Real.sin (radians realMath cam.Yaw)⟩ : Vec3 ℝ).scale (cam.MovementSpeed * deltaTime))
        = cam.MovementSpeed * |deltaTime|) := by
  have hc := cos_radians_pos_of_abs_lt_ninety cam.Pitch h1 h2
  have hf := horizontalFront_of_derived cam hc
  have hlen : length realMath ((⟨Real.cos (radians realMath cam.Yaw), 0,
        Real.sin (radians realMath cam.Yaw)⟩ : Vec3 ℝ).scale (cam.MovementSpeed * deltaTime))
      = |cam.MovementSpeed| * |deltaTime| := by
    rw [length_horizontal_scale, abs_mul]
  refine ⟨?_, ?_, hlen, ?_⟩
  · intro hcol
    have hcand : moveCandidate realMath (updateCameraVectors realMath cam)
        Camera_Movement.FORWARD deltaTime = cam.Position.add
          ((⟨Real.cos (radians realMath cam.Yaw), 0,
            Real.sin (radians realMath cam.Yaw)⟩ : Vec3 ℝ).scale
              (cam.MovementSpeed * deltaTime)) := by
      simp only [moveCandidate, hf]
      rfl
    simp only [ProcessKeyboard, newPositionOf_eq_moveCandidate, hcol]
    simp [hcand]
  · intro hcol
    have hcand : moveCandidate realMath (updateCameraVectors realMath cam)
        Camera_Movement.BACKWARD deltaTime = cam.Position.sub
          ((⟨Real.cos (radians realMath cam.Yaw), 0,
            Real.sin (radians realMath cam.Yaw)⟩ : Vec3 ℝ).scale
              (cam.MovementSpeed * deltaTime)) := by
      simp only [moveCandidate, hf]
      rfl
    simp only [ProcessKeyboard, newPositionOf_eq_moveCandidate, hcol]
    simp [hcand]
  · intro hs
    rw [hlen, abs_of_nonneg hs]

/-- Witness for C17: the camera constructed with pitch 89 (speed 2.5) and a
move of a tenth of a second. -/
theorem forward_displacement_pitch_free_witness :
    (-90 < steepCamera.Pitch ∧ steepCamera.Pitch < 90) ∧
    length realMath ((⟨Real.cos (radians realMath steepCamera.Yaw), 0,
        Real.sin (radians realMath steepCamera.Yaw)⟩ : Vec3 ℝ).scale
          (steepCamera.MovementSpeed * (1 / 10)))
      = steepCamera.MovementSpeed * |(1 / 10 : ℝ)| := by
  have hp : steepCamera.Pitch = 89 := rfl
  have hs : steepCamera.MovementSpeed = 5 / 2 := rfl
  have h1 : -90 < steepCamera.Pitch := by rw [hp]; norm_num
  have h2 : steepCamera.Pitch < 90 := by rw [hp]; norm_num
  exact ⟨⟨h1, h2⟩, (forward_displacement_pitch_free steepCamera (1 / 10) openMaze 10 10 1
    h1 h2).2.2.2 (by rw [hs]; norm_num)⟩

/-- C18: when the world up is `(0, 1, 0)`, the right vector that
`updateCameraVectors` computes has y component 0 for every yaw and pitch,
and `ProcessKeyboard` with direction LEFT or RIGHT on such a camera leaves
`position.y` unchanged, for every deltaTime, grid and collision outcome. -/
theorem right_horizontal_strafe_keeps_y (M : MathLib α) (cam : Camera α)
    (direction : Camera_Movement) (deltaTime : α) (maze : Maze)
    (mazeWidth mazeHeight : Int) (tileSize : α)
    (hup : cam.WorldUp = ⟨0, 1, 0⟩)
    (hdir : direction = Camera_Movement.LEFT ∨ direction = Camera_Movement.RIGHT) :
    (updateCameraVectors M cam).Right.y = 0 ∧
    (ProcessKeyboard M (updateCameraVectors M cam) direction deltaTime maze mazeWidth
      mazeHeight tileSize).Position.y = cam.Position.y := by
  have hr := updateCameraVectors_right_y M cam hup
  refine ⟨hr, ?_⟩
  have hy := moveCandidate_y_of_left_right M (updateCameraVectors M cam) direction deltaTime
    hr hdir
  have hp : (updateCameraVectors M cam).Position = cam.Position := rfl
  rw [hp] at hy
  simp only [ProcessKeyboard, newPositionOf_eq_moveCandidate]
  split_ifs <;> first | rfl | exact hy

/-- Witness for C18: a LEFT move of the default camera. -/
theorem right_horizontal_strafe_keeps_y_witness :
    defaultCamera.WorldUp = ⟨0, 1, 0⟩ ∧
    (updateCameraVectors realMath defaultCamera).Right.y = 0 ∧
    (ProcessKeyboard realMath (updateCameraVectors realMath defaultCamera)
      Camera_Movement.LEFT (1 / 10) openMaze 10 10 1).Position.y
        = defaultCamera.Position.y :=
  ⟨rfl, right_horizontal_strafe_keeps_y realMath defaultCamera Camera_Movement.LEFT (1 / 10)
    openMaze 10 10 1 rfl (Or.inl rfl)⟩

/-- C19: over exact real arithmetic, for every yaw and pitch the vector
`(cos yaw * cos pitch, sin pitch, sin yaw * cos pitch)` has length exactly 1,
so the front vector that `updateCameraVectors` stores is that vector and has
length 1. -/
theorem updateCameraVectors_front_unit (cam : Camera ℝ) :
    length realMath ⟨Real.cos (radians realMath cam.Yaw) * Real.cos (radians realMath cam.Pitch),
        Real.sin (radians realMath cam.Pitch),
        Real.sin (radians realMath cam.Yaw) * Real.cos (radians realMath cam.Pitch)⟩ = 1 ∧
    (updateCameraVectors realMath cam).Front =
      ⟨Real.cos (radians realMath cam.Yaw) * Real.cos (radians realMath cam.Pitch),
        Real.sin (radians realMath cam.Pitch),
        Real.sin (radians realMath cam.Yaw) * Real.cos (radians realMath cam.Pitch)⟩ ∧
    length realMath (updateCameraVectors realMath cam).Front = 1 := by
  have hu := (length_real_eq_one_iff _).mpr
    (eulerFront_unit (radians realMath cam.Yaw) (radians realMath cam.Pitch))
  refine ⟨hu, updateCameraVectors_front cam, ?_⟩
  rw [updateCameraVectors_front]
  exact hu

/-- C20, as stated, fails in `float` arithmetic: with `pos.x = pos.z = 0.9f`,
`margin = 0.1f` and `tileSize = 0.2f` (so `2 * margin = tileSize`), the sum
`0.9f + 0.1f` rounds up to `1.0f` and `1.0f / 0.2f` to `5.0f`, so `x = 5`,
while `xMinus = 3` and the centre column is `int(4.5f) = 4`, neither of them.
With `maze[4][4]` the only blocked cell, the probe reports no collision on
either axis although the centre cell is blocked. -/
theorem binary32_probe_misses_centre_cell :
    (binary32 (9 / 10) = 7549747 / 8388608 ∧
      binary32 (1 / 10) = halfTileMargin.collisionMargin ∧
      binary32 (1 / 5) = 13421773 / 67108864) ∧
    ((0 : ℚ) < 13421773 / 67108864 ∧ 0 ≤ 2 * halfTileMargin.collisionMargin ∧
      2 * halfTileMargin.collisionMargin ≤ 13421773 / 67108864) ∧
    (toInt (binary32 (binary32 (7549747 / 8388608 + halfTileMargin.collisionMargin)
        / (13421773 / 67108864))) = 5 ∧
      toInt (binary32 (binary32 (7549747 / 8388608 - halfTileMargin.collisionMargin)
        / (13421773 / 67108864))) = 3 ∧
      toInt (binary32 ((7549747 / 8388608 : ℚ) / (13421773 / 67108864))) = 4) ∧
    CheckCollisionRounded binary32 halfTileMargin ⟨7549747 / 8388608, 0, 7549747 / 8388608⟩
        centreMaze 10 10 (13421773 / 67108864)
      = { collisionX := false, collisionZ := false } ∧
    centreMaze (toInt (binary32 ((7549747 / 8388608 : ℚ) / (13421773 / 67108864))))
      (toInt (binary32 ((7549747 / 8388608 : ℚ) / (13421773 / 67108864)))) = 1 := by
  have hm : halfTileMargin.collisionMargin = 13421773 / 134217728 := rfl
  have e1 : toInt (binary32 (binary32 (7549747 / 8388608 + 13421773 / 134217728)
      / (13421773 / 67108864))) = 5 := by
    rw [binary32_plus_margin]
    exact toInt_of_nonneg (by norm_num) (by norm_num) (by norm_num)
  have e2 : toInt (binary32 (binary32 (7549747 / 8388608 - 13421773 / 134217728)
      / (13421773 / 67108864))) = 3 := by
    rw [binary32_minus_margin]
    exact toInt_of_nonneg (by norm_num) (by norm_num) (by norm_num)
  have e3 : toInt (binary32 ((7549747 / 8388608 : ℚ) / (13421773 / 67108864))) = 4 := by
    rw [binary32_centre]
    exact toInt_of_nonneg (by norm_num) (by norm_num) (by norm_num)
  refine ⟨⟨?_, ?_, ?_⟩, ⟨by norm_num, by rw [hm]; norm_num, by rw [hm]; norm_num⟩,
    ⟨by rw [hm]; exact e1, by rw [hm]; exact e2, e3⟩, ?_, ?_⟩
  · rw [binary32_eq_of_near (-1) 15099494 (by norm_num) (by norm_num) (by norm_num)
      (by norm_num) (by norm_num)]
    norm_num
  · rw [hm, binary32_eq_of_near (-4) 13421773 (by norm_num) (by norm_num) (by norm_num)
      (by norm_num) (by norm_num)]
    norm_num
  · rw [binary32_eq_of_near (-3) 13421773 (by norm_num) (by norm_num) (by norm_num)
      (by norm_num) (by norm_num)]
    norm_num
  · simp only [CheckCollisionRounded, hm, e1, e2, e3, centreMaze]
    simp
  · rw [e3]
    simp [centreMaze]

/-- C20 (amended): over exact arithmetic (no rounding of the float
operations), for `tileSize > 0` and `0 ≤ 2 * margin ≤ tileSize`, whenever
`CheckCollision` reports `collisionX = false` for a position, the centre cell
`maze[int(pos.z / tileSize)][int(pos.x / tileSize)]` is in range and not 1,
the centre column being `x` or `xMinus`; hence a move with neither axis
blocked commits the candidate and ends in a cell that is not 1. -/
theorem collisionX_false_centre_open (M : MathLib α) (cam : Camera α) (pos : Vec3 α)
    (direction : Camera_Movement) (deltaTime : α) (maze : Maze)
    (mazeWidth mazeHeight : Int) (tileSize : α) (hts : 0 < tileSize)
    (hm0 : 0 ≤ 2 * cam.collisionMargin) (hm1 : 2 * cam.collisionMargin ≤ tileSize) :
    ((CheckCollision cam pos maze mazeWidth mazeHeight tileSize).collisionX = false →
      ((0 ≤ centreRow pos tileSize ∧ centreRow pos tileSize < mazeHeight) ∧
        (0 ≤ centreCol pos tileSize ∧ centreCol pos tileSize < mazeWidth)) ∧
      (centreCol pos tileSize = indexX cam pos tileSize ∨
        centreCol pos tileSize = indexXMinus cam pos tileSize) ∧
      maze (centreRow pos tileSize) (centreCol pos tileSize) ≠ 1) ∧
    (CheckCollision cam (moveCandidate M cam direction deltaTime) maze mazeWidth mazeHeight
        tileSize = { collisionX := false, collisionZ := false } →
      (ProcessKeyboard M cam direction deltaTime maze mazeWidth mazeHeight tileSize).Position
        = moveCandidate M cam direction deltaTime ∧
      maze (centreRow (ProcessKeyboard M cam direction deltaTime maze mazeWidth mazeHeight
              tileSize).Position tileSize)
           (centreCol (ProcessKeyboard M cam direction deltaTime maze mazeWidth mazeHeight
              tileSize).Position tileSize) ≠ 1) := by
  have key : ∀ p : Vec3 α,
      (CheckCollision cam p maze mazeWidth mazeHeight tileSize).collisionX = false →
      ((0 ≤ centreRow p tileSize ∧ centreRow p tileSize < mazeHeight) ∧
        (0 ≤ centreCol p tileSize ∧ centreCol p tileSize < mazeWidth)) ∧
      (centreCol p tileSize = indexX cam p tileSize ∨
        centreCol p tileSize = indexXMinus cam p tileSize) ∧
      maze (centreRow p tileSize) (centreCol p tileSize) ≠ 1 := by
    intro p hx
    by_cases hin : IndicesInRange cam p mazeWidth mazeHeight tileSize
    · rw [checkCollision_of_inRange cam p maze mazeWidth mazeHeight tileSize hin] at hx
      simp only [decide_eq_false_iff_not, not_or] at hx
      have hor := index_centre_or cam p tileSize hts hm0 hm1
      refine ⟨centre_inRange cam p mazeWidth mazeHeight tileSize hts hin, hor, ?_⟩
      rcases hor with e | e <;> rw [e]
      · exact hx.1
      · exact hx.2
    · rw [checkCollision_of_not_inRange cam p maze mazeWidth mazeHeight tileSize hin] at hx
      exact absurd hx (by decide)
  refine ⟨key pos, ?_⟩
  intro hc
  have hpos : (ProcessKeyboard M cam direction deltaTime maze mazeWidth mazeHeight
      tileSize).Position = moveCandidate M cam direction deltaTime := by
    simp [ProcessKeyboard, newPositionOf_eq_moveCandidate, hc]
  refine ⟨hpos, ?_⟩
  rw [hpos]
  exact (key _ (by rw [hc])).2.2

/-- Witness for C20: the camera `nearEdge` (margin 0.12, unit tiles) moving
RIGHT for a tenth of a second in the open grid. -/
theorem collisionX_false_centre_open_witness :
    (0 < (1 : ℚ) ∧ 0 ≤ 2 * nearEdge.collisionMargin ∧ 2 * nearEdge.collisionMargin ≤ 1) ∧
    ((CheckCollision nearEdge ⟨9 / 20, 0, 1 / 2⟩ openMaze 10 10 1).collisionX = false →
      openMaze (centreRow (⟨9 / 20, 0, 1 / 2⟩ : Vec3 ℚ) 1)
        (centreCol (⟨9 / 20, 0, 1 / 2⟩ : Vec3 ℚ) 1) ≠ 1) := by
  have h0 : (0 : ℚ) < 1 := by norm_num
  have h1 : 0 ≤ 2 * nearEdge.collisionMargin := by norm_num [nearEdge]
  have h2 : 2 * nearEdge.collisionMargin ≤ 1 := by norm_num [nearEdge]
  exact ⟨⟨h0, h1, h2⟩, fun h =>
    ((collisionX_false_centre_open ratMath nearEdge ⟨9 / 20, 0, 1 / 2⟩ Camera_Movement.RIGHT
      (1 / 10) openMaze 10 10 1 h0 h1 h2).1 h).2.2⟩

end Claims

end MazeCamera
